import Mathlib

/-! Robot2 edge follower.

A shallow embedding of `src/Robot2.cpp` (ATtiny85 edge-following robot) and
theorems about its per-tick decision logic.

Machine integers are natural numbers with explicit reduction: `uint8_t` values
are only ever assigned constants, `uint16_t` arithmetic is reduced modulo
`2^16` (on AVR `int` is 16 bits wide, so `lwhiteval*leftSensitivity` is
computed in `unsigned int`), `unsigned long` arithmetic modulo `2^32`.

Every call of `millis()` and `micros()` is an input of the tick: the value the
call returns at that place of the source.
-/

namespace Robot2

/-! ## Configuration (lines 21-43) -/

/-- Line 21: motor pwm value of the left wheel. -/
def baseLeftSpeed : Nat := 17
/-- Line 22: motor pwm value of the right wheel. -/
def baseRightSpeed : Nat := 17
/-- Line 28: numerator n of the left threshold `whiteValue*n/4`. -/
def leftSensitivity : Nat := 3
/-- Line 29: numerator n of the right threshold `whiteValue*n/4`. -/
def rightSensitivity : Nat := 3
/-- Line 40, milliseconds. -/
def steplength : Nat := 300
/-- Line 41, milliseconds. -/
def smallturn : Nat := 200
/-- Line 42, milliseconds. -/
def bigturn : Nat := 500
/-- Line 43, milliseconds. -/
def memtime : Nat := 1000

/-! ## Machine arithmetic -/

/-- Reduction to `uint8_t`. -/
def u8 (n : Nat) : Nat := n % 256
/-- Reduction to `uint16_t`. -/
def u16 (n : Nat) : Nat := n % 65536
/-- Reduction to `unsigned long` (32 bits on AVR). -/
def u32 (n : Nat) : Nat := n % 4294967296

/-- Line 70: `lspd = baseLeftSpeed;` (a `uint8_t` global, never written again). -/
def lspd : Nat := u8 baseLeftSpeed
/-- Line 71: `rspd = baseRightSpeed;` (a `uint8_t` global, never written again). -/
def rspd : Nat := u8 baseRightSpeed

/-! ## Sensors -/

/-- Lines 109-114, one side: `senseval = 0; for(i=0;i<4;i++) senseval += analogRead(pin);`
with `read i` the value of the i-th `analogRead`, accumulated in `uint16_t`. -/
def sumReads (read : Nat → Nat) : Nat :=
  (List.range 4).foldl (fun acc i => u16 (acc + read i)) 0

/-- Lines 238-252, `senseInit`: both sides are summed over 16 reads in `uint16_t`
and shifted right by 4. The result is `(lwhiteval, rwhiteval)`. -/
def senseInit (lread rread : Nat → Nat) : Nat × Nat :=
  let acc := (List.range 16).foldl
    (fun (p : Nat × Nat) i => (u16 (p.1 + lread i), u16 (p.2 + rread i))) (0, 0)
  (acc.1 >>> 4, acc.2 >>> 4)

/-- The white test of lines 124, 166 and 174: `senseval > whiteval*sensitivity`,
the product computed in 16-bit unsigned arithmetic. -/
def isWhite (senseval whiteval sensitivity : Nat) : Bool :=
  decide (senseval > u16 (whiteval * sensitivity))

/-- The three top-level branches of the tick; the numbers are the values the
branch stores in `lastSense` (line 99: 0=edge, 1=both white, 2=both black). -/
inductive Sense
  | edge
  | bothWhite
  | bothBlack
deriving DecidableEq, Repr

/-- The value of `lastSense` a branch stores. -/
def Sense.code : Sense → Nat
  | .edge => 0
  | .bothWhite => 1
  | .bothBlack => 2

/-- The branch selection of lines 124, 166, 182: `if (l && r) … else if (l || r) … else …`. -/
def classify (lsenseval rsenseval lwhiteval rwhiteval : Nat) : Sense :=
  if isWhite lsenseval lwhiteval leftSensitivity && isWhite rsenseval rwhiteval rightSensitivity then
    Sense.bothWhite
  else if isWhite lsenseval lwhiteval leftSensitivity || isWhite rsenseval rwhiteval rightSensitivity then
    Sense.edge
  else
    Sense.bothBlack

/-! ## Engine state and one tick -/

/-- The local variables of `followEdge` that live across iterations (lines 93-99). -/
structure Engine where
  /-- Line 93: 0=straight, 1=left, 2=right -/
  lastMove : Nat
  /-- Line 94: the millis at which to stop -/
  moveEndTime : Nat
  /-- Line 95: for a random walk -/
  randomBits : Nat
  /-- Line 97: after edge encounter set to millis + memtime -/
  prior : Nat
  /-- Line 98: 0=left, 1=right, 2=both -/
  priorDir : Nat
  /-- Line 99: 0=edge, 1=both white, 2=both black -/
  lastSense : Nat
deriving DecidableEq, Repr

/-- Lines 93-99: the state before the first iteration; `seed` is what `micros()`
returns at line 95. -/
def initEngine (seed : Nat) : Engine :=
  { lastMove := 1, moveEndTime := 0, randomBits := seed, prior := 0, priorDir := 0, lastSense := 1 }

/-- What the environment returns during one iteration of the loop. -/
structure Tick where
  /-- Line 112: the summed left reads -/
  lsenseval : Nat
  /-- Line 113: the summed right reads -/
  rsenseval : Nat
  /-- Line 119: the value of `micros()`, used only when the pool is empty -/
  micros : Nat
  /-- Lines 126, 184: the value of `millis()` in the memory test -/
  tMem : Nat
  /-- Lines 143, 201: the value of `millis()` in the hold test -/
  tHold : Nat
  /-- The value of `millis()` in the assignment of `moveEndTime` -/
  tMove : Nat
  /-- Line 173: the value of `millis()` in the assignment of `prior` -/
  tPrior : Nat
deriving DecidableEq, Repr

/-- A tick during which every call of `millis()` returns `now`. -/
def Tick.atTime (now lsenseval rsenseval micros : Nat) : Tick :=
  { lsenseval := lsenseval, rsenseval := rsenseval, micros := micros,
    tMem := now, tHold := now, tMove := now, tPrior := now }

/-- The leaf of the decision tree an iteration ends in (a label, not program state). -/
inductive Path
  /-- Memory turn, `priorDir == 0` (lines 128-131, 186-189) -/
  | memDir0
  /-- Memory turn, `priorDir == 1` (lines 132-135, 190-193) -/
  | memDir1
  /-- Memory turn, other `priorDir` (lines 136-139, 194-197) -/
  | memBoth
  /-- Random walk, `millis() < moveEndTime` (lines 143-144, 201-202) -/
  | hold
  /-- Random walk, straight after a turn (lines 146-149, 204-207) -/
  | walkStraight
  /-- Random walk, turn chosen by the pool (lines 151-160, 209-218) -/
  | walkTurn
  /-- Edge (lines 166-180) -/
  | edge
deriving DecidableEq, Repr

/-- Result of one iteration: the new state, the arguments of the call of `move`
(if there was one) and the leaf reached. -/
structure Outcome where
  state : Engine
  cmd : Option (Nat × Nat)
  path : Path
deriving DecidableEq, Repr

/-- Line 119: `if(randomBits == 0){ randomBits = micros(); }`. -/
def refill (randomBits micros : Nat) : Nat :=
  if randomBits = 0 then micros else randomBits

/-- Lines 125-164, entered with the pool already refilled. -/
def bothWhiteBranch (s : Engine) (c : Tick) : Outcome :=
  if s.lastSense = 2 ∨ c.tMem < s.prior then
    if s.priorDir = 0 then
      ⟨{ s with moveEndTime := u32 (c.tMove + smallturn), lastMove := 1, lastSense := 1 },
        some (0, rspd), Path.memDir0⟩
    else if s.priorDir = 1 then
      ⟨{ s with moveEndTime := u32 (c.tMove + smallturn), lastMove := 2, lastSense := 1 },
        some (lspd, 0), Path.memDir1⟩
    else
      ⟨{ s with moveEndTime := u32 (c.tMove + bigturn), lastMove := 1, lastSense := 1 },
        some (0, rspd), Path.memBoth⟩
  else if c.tHold < s.moveEndTime then
    ⟨{ s with lastSense := 1 }, none, Path.hold⟩
  else if s.lastMove ≠ 0 then
    ⟨{ s with moveEndTime := u32 (c.tMove + steplength), lastMove := 0, lastSense := 1 },
      some (lspd, rspd), Path.walkStraight⟩
  else if s.randomBits &&& 1 ≠ 0 then
    ⟨{ s with moveEndTime := u32 (c.tMove + smallturn), lastMove := 1,
              randomBits := s.randomBits >>> 1, lastSense := 1 },
      some (0, rspd), Path.walkTurn⟩
  else
    ⟨{ s with moveEndTime := u32 (c.tMove + smallturn), lastMove := 2,
              randomBits := s.randomBits >>> 1, lastSense := 1 },
      some (lspd, 0), Path.walkTurn⟩

/-- Lines 167-180. -/
def edgeBranch (lwhiteval : Nat) (s : Engine) (c : Tick) : Outcome :=
  ⟨{ s with moveEndTime := u32 (c.tMove + steplength), lastMove := 0, lastSense := 0,
            prior := u32 (c.tPrior + memtime),
            priorDir := if isWhite c.lsenseval lwhiteval leftSensitivity then 1 else 0 },
    some (lspd, rspd), Path.edge⟩

/-- Lines 183-222, entered with the pool already refilled. -/
def bothBlackBranch (s : Engine) (c : Tick) : Outcome :=
  if s.lastSense = 1 ∨ c.tMem < s.prior then
    if s.priorDir = 0 then
      ⟨{ s with moveEndTime := u32 (c.tMove + smallturn), lastMove := 2, lastSense := 2 },
        some (lspd, 0), Path.memDir0⟩
    else if s.priorDir = 1 then
      ⟨{ s with moveEndTime := u32 (c.tMove + smallturn), lastMove := 1, lastSense := 2 },
        some (0, rspd), Path.memDir1⟩
    else
      ⟨{ s with moveEndTime := u32 (c.tMove + bigturn), lastMove := 2, lastSense := 2 },
        some (lspd, 0), Path.memBoth⟩
  else if c.tHold < s.moveEndTime then
    ⟨{ s with lastSense := 2 }, none, Path.hold⟩
  else if s.lastMove ≠ 0 then
    ⟨{ s with moveEndTime := u32 (c.tMove + steplength), lastMove := 0, lastSense := 2 },
      some (lspd, rspd), Path.walkStraight⟩
  else if s.randomBits &&& 1 ≠ 0 then
    ⟨{ s with moveEndTime := u32 (c.tMove + smallturn), lastMove := 1,
              randomBits := s.randomBits >>> 1, lastSense := 2 },
      some (0, rspd), Path.walkTurn⟩
  else
    ⟨{ s with moveEndTime := u32 (c.tMove + smallturn), lastMove := 2,
              randomBits := s.randomBits >>> 1, lastSense := 2 },
      some (lspd, 0), Path.walkTurn⟩

/-- One iteration of the `while(true)` of `followEdge` from line 118 on: the
refill check, then the branch chosen by the sensor test. -/
def followEdgeStep (lwhiteval rwhiteval : Nat) (s : Engine) (c : Tick) : Outcome :=
  let s1 : Engine := { s with randomBits := refill s.randomBits c.micros }
  match classify c.lsenseval c.rsenseval lwhiteval rwhiteval with
  | Sense.bothWhite => bothWhiteBranch s1 c
  | Sense.edge => edgeBranch lwhiteval s1 c
  | Sense.bothBlack => bothBlackBranch s1 c

/-- The state of `followEdge` after the iterations fed by `ticks`, started at `s`. -/
def runFrom (lwhiteval rwhiteval : Nat) (s : Engine) (ticks : List Tick) : Engine :=
  ticks.foldl (fun e c => (followEdgeStep lwhiteval rwhiteval e c).state) s

/-- The state of `followEdge` after the iterations fed by `ticks`: `seed` is the
value of `micros()` at line 95. -/
def followEdge (lwhiteval rwhiteval seed : Nat) (ticks : List Tick) : Engine :=
  runFrom lwhiteval rwhiteval (initEngine seed) ticks

/-- One iteration together with a record of the most recent call of `move`:
the value of `millis()` in the assignment just before the call and the two
speeds passed. An iteration that does not call `move` leaves the record as it is. -/
def logStep (lwhiteval rwhiteval : Nat) (p : Engine × Option (Nat × (Nat × Nat))) (c : Tick) :
    Engine × Option (Nat × (Nat × Nat)) :=
  ((followEdgeStep lwhiteval rwhiteval p.1 c).state,
    match (followEdgeStep lwhiteval rwhiteval p.1 c).cmd with
    | some m => some (c.tMove, m)
    | none => p.2)

/-- The state of `followEdge` after the iterations fed by `ticks`, with the most
recent call of `move` (none before the first call). -/
def followEdgeLog (lwhiteval rwhiteval seed : Nat) (ticks : List Tick) :
    Engine × Option (Nat × (Nat × Nat)) :=
  ticks.foldl (logStep lwhiteval rwhiteval) (initEngine seed, none)

/-- The invariant behind C5: when `lastMove` is 0, the most recent call of `move`
was `move(lspd, rspd)` and `moveEndTime` is its time plus `steplength`. -/
def StraightInForce (p : Engine × Option (Nat × (Nat × Nat))) : Prop :=
  p.1.lastMove = 0 → ∃ t0, p.2 = some (t0, (lspd, rspd)) ∧ p.1.moveEndTime = t0 + steplength

/-- Lines 59-84, `setup`: apart from pin modes, the LED flashes and the delays,
`setup` stores the base speeds in `lspd`, `rspd` (the constants above) and calls
`senseInit`; the reads of the 16 calibration rounds are its input and the
baseline `(lwhiteval, rwhiteval)` is what it leaves. It has no other result and
no path that ends without one. -/
def setup (lread rread : Nat → Nat) : Nat × Nat :=
  senseInit lread rread

/-- The whole sketch: the Arduino runtime calls `setup()` once and then `loop()`
(lines 86-89), which calls `followEdge()` with the globals `setup` left. -/
def sketch (lread rread : Nat → Nat) (seed : Nat) (ticks : List Tick) : Engine :=
  followEdge (setup lread rread).1 (setup lread rread).2 seed ticks

/-- Lines 227-230, `move`: the two `uint8_t` arguments are written as pwm levels
to the left and the right motor pin. -/
def move (lspeed rspeed : Nat) : Nat × Nat :=
  (u8 lspeed, u8 rspeed)

/-- Lines 232-235, `stop`: both motor pins at level 0. -/
def stop : Nat × Nat :=
  (0, 0)

/-- The sum of the first 16 values of `read`, without reduction. -/
def sum16 (read : Nat → Nat) : Nat :=
  ((List.range 16).map read).sum

/-- The state transformation of the mirror claim, as the claim words it: it swaps
the `lastSense` values 1 (both white) and 2 (both black), swaps the `priorDir`
values 0 (left) and 1 (right), and leaves every other value and field as it is. -/
def conj (s : Engine) : Engine :=
  { s with
    lastSense := if s.lastSense = 1 then 2 else if s.lastSense = 2 then 1 else s.lastSense,
    priorDir := if s.priorDir = 0 then 1 else if s.priorDir = 1 then 0 else s.priorDir }

/-- The invariant behind C15, once `move` has been called: the record holds the
most recent call, `lastMove` names it, and `moveEndTime` is its time plus the
duration of the command, in 32-bit arithmetic. -/
def Issued (p : Engine × Option (Nat × (Nat × Nat))) : Prop :=
  ∃ t0,
    (p.2 = some (t0, (lspd, rspd)) ∧ p.1.lastMove = 0 ∧
      p.1.moveEndTime = u32 (t0 + steplength)) ∨
    (p.2 = some (t0, (0, rspd)) ∧ p.1.lastMove = 1 ∧
      (p.1.moveEndTime = u32 (t0 + smallturn) ∨ p.1.moveEndTime = u32 (t0 + bigturn))) ∨
    (p.2 = some (t0, (lspd, 0)) ∧ p.1.lastMove = 2 ∧
      (p.1.moveEndTime = u32 (t0 + smallturn) ∨ p.1.moveEndTime = u32 (t0 + bigturn)))

/-- The invariant behind C15: either `move` has not been called yet and
`lastMove`, `moveEndTime` are as lines 93-94 set them, or `Issued` holds. -/
def Tracked (p : Engine × Option (Nat × (Nat × Nat))) : Prop :=
  (p.2 = none ∧ p.1.lastMove = 1 ∧ p.1.moveEndTime = 0) ∨ Issued p

/-- The time source between two consecutive iterations, `d` then `c`: the
difference of the two readings of `micros()` at line 119, taken in 32-bit
arithmetic, is at least 19000. Between the two readings the loop runs
`delay(18)` (line 105) and `delay(1)` (line 108), and the counter behind
`micros()` wraps only every 2^32 microseconds. -/
def timerAdvances (d c : Tick) : Bool :=
  decide (19000 ≤ u32 (c.micros + 4294967296 - u32 d.micros))

/-- The time source along a run: `timerAdvances` between every iteration and
the next. -/
def timerRuns : List Tick → Bool
  | [] => true
  | [_] => true
  | d :: c :: rest => timerAdvances d c && timerRuns (c :: rest)

/-! ## Basic facts -/

theorem isWhite_iff (senseval whiteval sensitivity : Nat) :
    isWhite senseval whiteval sensitivity = true ↔ u16 (whiteval * sensitivity) < senseval := by
  simp [isWhite]

theorem u16_lt (n : Nat) : u16 n < 65536 := by
  unfold u16; omega

theorem u16_of_lt {n : Nat} (h : n < 65536) : u16 n = n := by
  unfold u16; omega

theorem u32_of_lt {n : Nat} (h : n < 4294967296) : u32 n = n := by
  unfold u32; omega

theorem senseInit_fst_le (lread rread : Nat → Nat) : (senseInit lread rread).1 ≤ 4095 := by
  have h : ((List.range 16).foldl
      (fun (p : Nat × Nat) i => (u16 (p.1 + lread i), u16 (p.2 + rread i))) (0, 0)).1 < 65536 := by
    rw [List.range_succ, List.foldl_append]
    exact u16_lt _
  simp only [senseInit, Nat.shiftRight_eq_div_pow]
  omega

theorem senseInit_snd_le (lread rread : Nat → Nat) : (senseInit lread rread).2 ≤ 4095 := by
  have h : ((List.range 16).foldl
      (fun (p : Nat × Nat) i => (u16 (p.1 + lread i), u16 (p.2 + rread i))) (0, 0)).2 < 65536 := by
    rw [List.range_succ, List.foldl_append]
    exact u16_lt _
  simp only [senseInit, Nat.shiftRight_eq_div_pow]
  omega

theorem classify_bothWhite_iff (l r lw rw : Nat) :
    classify l r lw rw = Sense.bothWhite ↔
      (isWhite l lw leftSensitivity = true ∧ isWhite r rw rightSensitivity = true) := by
  unfold classify
  cases isWhite l lw leftSensitivity <;> cases isWhite r rw rightSensitivity <;> simp

theorem classify_bothBlack_iff (l r lw rw : Nat) :
    classify l r lw rw = Sense.bothBlack ↔
      (isWhite l lw leftSensitivity = false ∧ isWhite r rw rightSensitivity = false) := by
  unfold classify
  cases isWhite l lw leftSensitivity <;> cases isWhite r rw rightSensitivity <;> simp

theorem classify_edge_iff (l r lw rw : Nat) :
    classify l r lw rw = Sense.edge ↔
      ((isWhite l lw leftSensitivity = true ∧ isWhite r rw rightSensitivity = false) ∨
       (isWhite l lw leftSensitivity = false ∧ isWhite r rw rightSensitivity = true)) := by
  unfold classify
  cases isWhite l lw leftSensitivity <;> cases isWhite r rw rightSensitivity <;> simp

theorem bothWhiteBranch_lastSense (s : Engine) (c : Tick) :
    (bothWhiteBranch s c).state.lastSense = 1 := by
  unfold bothWhiteBranch
  repeat' split
  all_goals rfl

theorem bothBlackBranch_lastSense (s : Engine) (c : Tick) :
    (bothBlackBranch s c).state.lastSense = 2 := by
  unfold bothBlackBranch
  repeat' split
  all_goals rfl

/-- The branch an iteration takes is recorded in `lastSense`. -/
theorem step_lastSense (lw rw : Nat) (s : Engine) (c : Tick) :
    (followEdgeStep lw rw s c).state.lastSense =
      (classify c.lsenseval c.rsenseval lw rw).code := by
  unfold followEdgeStep
  cases h : classify c.lsenseval c.rsenseval lw rw
  · simp [edgeBranch, Sense.code]
  · simp [bothWhiteBranch_lastSense, Sense.code]
  · simp [bothBlackBranch_lastSense, Sense.code]

theorem step_path_edge_iff (lw rw : Nat) (s : Engine) (c : Tick) :
    (followEdgeStep lw rw s c).path = Path.edge ↔
      classify c.lsenseval c.rsenseval lw rw = Sense.edge := by
  unfold followEdgeStep
  cases h : classify c.lsenseval c.rsenseval lw rw
  · simp [edgeBranch]
  · simp only [bothWhiteBranch]
    repeat' split
    all_goals simp
  · simp only [bothBlackBranch]
    repeat' split
    all_goals simp

/-! ## C1: the classifier -/

/-- C1. Call a side white when its summed reading is strictly greater than
`whiteval*sensitivity` as line 124 computes it (16-bit product, numerator 3) and
black otherwise. For every state, every baseline and every pair of summed
readings the iteration takes the both-white branch (it stores `lastSense = 1`)
iff both sides are white, the both-black branch (`lastSense = 2`) iff both are
black, and the edge branch (`lastSense = 0`, leaf `edge`) iff exactly one side
is white; one of the three is always taken. For every baseline `senseInit` can
produce the 16-bit product is the exact product. In the averaged scale the
baseline 500 has threshold 375 (`4*375 = 500*3`); four reads of 600 per side are
both white, 600 left and 200 right are an edge that stores `priorDir = 1`
(right), 200 on both sides are both black. -/
theorem followEdge_classifier (lwhiteval rwhiteval : Nat) (s : Engine) (c : Tick) :
    ((followEdgeStep lwhiteval rwhiteval s c).state.lastSense = 1 ↔
      (u16 (lwhiteval * leftSensitivity) < c.lsenseval ∧
        u16 (rwhiteval * rightSensitivity) < c.rsenseval)) ∧
    ((followEdgeStep lwhiteval rwhiteval s c).state.lastSense = 2 ↔
      (c.lsenseval ≤ u16 (lwhiteval * leftSensitivity) ∧
        c.rsenseval ≤ u16 (rwhiteval * rightSensitivity))) ∧
    ((followEdgeStep lwhiteval rwhiteval s c).state.lastSense = 0 ↔
      ((u16 (lwhiteval * leftSensitivity) < c.lsenseval ∧
          c.rsenseval ≤ u16 (rwhiteval * rightSensitivity)) ∨
        (c.lsenseval ≤ u16 (lwhiteval * leftSensitivity) ∧
          u16 (rwhiteval * rightSensitivity) < c.rsenseval))) ∧
    ((followEdgeStep lwhiteval rwhiteval s c).path = Path.edge ↔
      (followEdgeStep lwhiteval rwhiteval s c).state.lastSense = 0) ∧
    ((followEdgeStep lwhiteval rwhiteval s c).state.lastSense = 1 ∨
      (followEdgeStep lwhiteval rwhiteval s c).state.lastSense = 0 ∨
      (followEdgeStep lwhiteval rwhiteval s c).state.lastSense = 2) ∧
    (∀ lread rread : Nat → Nat,
      u16 ((senseInit lread rread).1 * leftSensitivity)
          = (senseInit lread rread).1 * leftSensitivity ∧
      u16 ((senseInit lread rread).2 * rightSensitivity)
          = (senseInit lread rread).2 * rightSensitivity) ∧
    (4 * 375 = 500 * leftSensitivity ∧ 4 * 375 = 500 * rightSensitivity) ∧
    classify (sumReads (fun _ => 600)) (sumReads (fun _ => 600)) 500 500 = Sense.bothWhite ∧
    classify (sumReads (fun _ => 600)) (sumReads (fun _ => 200)) 500 500 = Sense.edge ∧
    (followEdgeStep 500 500 s
      { c with lsenseval := sumReads (fun _ => 600),
               rsenseval := sumReads (fun _ => 200) }).state.priorDir = 1 ∧
    classify (sumReads (fun _ => 200)) (sumReads (fun _ => 200)) 500 500 = Sense.bothBlack := by
  have hcode : ∀ x : Sense, (x.code = 1 ↔ x = Sense.bothWhite) ∧
      (x.code = 2 ↔ x = Sense.bothBlack) ∧ (x.code = 0 ↔ x = Sense.edge) := by
    intro x; cases x <;> simp [Sense.code]
  have hL := isWhite_iff c.lsenseval lwhiteval leftSensitivity
  have hR := isWhite_iff c.rsenseval rwhiteval rightSensitivity
  have hLf : isWhite c.lsenseval lwhiteval leftSensitivity = false ↔
      c.lsenseval ≤ u16 (lwhiteval * leftSensitivity) := by
    rw [← Bool.not_eq_true, hL]; omega
  have hRf : isWhite c.rsenseval rwhiteval rightSensitivity = false ↔
      c.rsenseval ≤ u16 (rwhiteval * rightSensitivity) := by
    rw [← Bool.not_eq_true, hR]; omega
  refine ⟨?_, ?_, ?_, ?_, ?_, ?_, ⟨by decide, by decide⟩, by decide, by decide, ?_, by decide⟩
  · rw [step_lastSense, (hcode _).1, classify_bothWhite_iff, hL, hR]
  · rw [step_lastSense, (hcode _).2.1, classify_bothBlack_iff, hLf, hRf]
  · rw [step_lastSense, (hcode _).2.2, classify_edge_iff, hL, hR, hLf, hRf]
  · rw [step_path_edge_iff, step_lastSense, (hcode _).2.2]
  · rw [step_lastSense]
    cases classify c.lsenseval c.rsenseval lwhiteval rwhiteval <;> simp [Sense.code]
  · intro lread rread
    have h1 := senseInit_fst_le lread rread
    have h2 := senseInit_snd_le lread rread
    constructor
    · apply u16_of_lt; simp only [leftSensitivity]; omega
    · apply u16_of_lt; simp only [rightSensitivity]; omega
  · have hc : classify (sumReads (fun _ => 600)) (sumReads (fun _ => 200)) 500 500
        = Sense.edge := by decide
    have hw : isWhite (sumReads (fun _ => 600)) 500 leftSensitivity = true := by decide
    simp [followEdgeStep, hc, edgeBranch, hw]

theorem step_of_bothWhite {lw rw : Nat} {c : Tick}
    (h : classify c.lsenseval c.rsenseval lw rw = Sense.bothWhite) (s : Engine) :
    followEdgeStep lw rw s c =
      bothWhiteBranch { s with randomBits := refill s.randomBits c.micros } c := by
  simp [followEdgeStep, h]

theorem step_of_bothBlack {lw rw : Nat} {c : Tick}
    (h : classify c.lsenseval c.rsenseval lw rw = Sense.bothBlack) (s : Engine) :
    followEdgeStep lw rw s c =
      bothBlackBranch { s with randomBits := refill s.randomBits c.micros } c := by
  simp [followEdgeStep, h]

theorem step_of_edge {lw rw : Nat} {c : Tick}
    (h : classify c.lsenseval c.rsenseval lw rw = Sense.edge) (s : Engine) :
    followEdgeStep lw rw s c =
      edgeBranch lw { s with randomBits := refill s.randomBits c.micros } c := by
  simp [followEdgeStep, h]

/-! ## C2: the edge branch -/

/-- C2. For every state and every tick at time `T` (each `millis()` of the tick
returns `T`) classified as edge: afterwards `prior` is `T + memtime` and
`moveEndTime` is `T + steplength` (the 32-bit sums of lines 169 and 173, which
are the exact sums when `T + memtime < 2^32`), `priorDir` is 1 (right) when the
left side is white and 0 (left) when the right side is white, the command is
`move(lspd, rspd)`, `lastMove = 0` and `lastSense = 0`; nothing of the previous
`prior`, `priorDir`, `lastMove`, `moveEndTime`, `lastSense` enters. -/
theorem followEdge_edge_post (lwhiteval rwhiteval : Nat) (s : Engine) (T l r mic : Nat)
    (hE : classify l r lwhiteval rwhiteval = Sense.edge) :
    (followEdgeStep lwhiteval rwhiteval s (Tick.atTime T l r mic)).state.prior
        = u32 (T + memtime) ∧
    (isWhite l lwhiteval leftSensitivity = true →
      (followEdgeStep lwhiteval rwhiteval s (Tick.atTime T l r mic)).state.priorDir = 1) ∧
    (isWhite r rwhiteval rightSensitivity = true →
      (followEdgeStep lwhiteval rwhiteval s (Tick.atTime T l r mic)).state.priorDir = 0) ∧
    (followEdgeStep lwhiteval rwhiteval s (Tick.atTime T l r mic)).cmd = some (lspd, rspd) ∧
    (followEdgeStep lwhiteval rwhiteval s (Tick.atTime T l r mic)).state.moveEndTime
        = u32 (T + steplength) ∧
    (followEdgeStep lwhiteval rwhiteval s (Tick.atTime T l r mic)).state.lastMove = 0 ∧
    (followEdgeStep lwhiteval rwhiteval s (Tick.atTime T l r mic)).state.lastSense = 0 ∧
    (T + memtime < 4294967296 →
      (followEdgeStep lwhiteval rwhiteval s (Tick.atTime T l r mic)).state.prior
          = T + memtime ∧
      (followEdgeStep lwhiteval rwhiteval s (Tick.atTime T l r mic)).state.moveEndTime
          = T + steplength) := by
  have hE2 : classify (Tick.atTime T l r mic).lsenseval (Tick.atTime T l r mic).rsenseval
      lwhiteval rwhiteval = Sense.edge := hE
  rw [step_of_edge hE2]
  have hx := (classify_edge_iff l r lwhiteval rwhiteval).1 hE
  refine ⟨rfl, ?_, ?_, rfl, rfl, rfl, rfl, ?_⟩
  · intro hl
    simp [edgeBranch, Tick.atTime, hl]
  · intro hr
    rcases hx with ⟨_, h2⟩ | ⟨h1, _⟩
    · rw [h2] at hr; cases hr
    · simp [edgeBranch, Tick.atTime, h1]
  · intro hT
    simp only [edgeBranch, Tick.atTime, memtime, steplength] at hT ⊢
    constructor <;> apply u32_of_lt <;> omega

/-- Witness of C2: from the initial state, baseline (500, 500), left sum 2400
(white), right sum 800 (black), at time 1000. -/
theorem followEdge_edge_post_witness :
    (followEdgeStep 500 500 (initEngine 5) (Tick.atTime 1000 2400 800 0)).state.prior
        = u32 (1000 + memtime) ∧
    (followEdgeStep 500 500 (initEngine 5) (Tick.atTime 1000 2400 800 0)).state.priorDir = 1 ∧
    (followEdgeStep 500 500 (initEngine 5) (Tick.atTime 1000 2400 800 0)).state.prior = 2000 :=
  have h := followEdge_edge_post 500 500 (initEngine 5) 1000 2400 800 0 (by decide)
  ⟨h.1, h.2.1 (by decide), by decide⟩

theorem u32_small_ne_big (now : Nat) : u32 (now + smallturn) ≠ u32 (now + bigturn) := by
  simp only [u32, smallturn, bigturn]; omega

theorem u32_step_ne_big (now : Nat) : u32 (now + steplength) ≠ u32 (now + bigturn) := by
  simp only [u32, steplength, bigturn]; omega

theorem lspd_ne_zero : lspd ≠ 0 := by decide

theorem rspd_ne_zero : rspd ≠ 0 := by decide

/-! ## C3: the memory-directed turn -/

/-- C3. For every state and every tick at time `now` classified both white with
`lastSense == 2 || now < prior`, or both black with `lastSense == 1 || now < prior`:
the leaf reached is one of the three memory turns (never the random walk) and
`randomBits` is what the refill check left (no bit is shifted out). With
`priorDir = 0` the duration is `smallturn` and the turn is left `(0, rspd)` on
both white, right `(lspd, 0)` on both black; with `priorDir = 1` the duration is
`smallturn` and the turn is right on both white, left on both black. The
duration is `bigturn` exactly when `priorDir` is neither 0 nor 1, which among
the values 0, 1, 2 of line 98 is exactly the value 2. `lastMove` names the turn
issued (1 for left, 2 for right). -/
theorem followEdge_memory_turn (lwhiteval rwhiteval : Nat) (s : Engine) (now l r mic : Nat)
    (o : Outcome) (ho : o = followEdgeStep lwhiteval rwhiteval s (Tick.atTime now l r mic))
    (hmem : (classify l r lwhiteval rwhiteval = Sense.bothWhite ∧
              (s.lastSense = 2 ∨ now < s.prior)) ∨
            (classify l r lwhiteval rwhiteval = Sense.bothBlack ∧
              (s.lastSense = 1 ∨ now < s.prior))) :
    (o.path = Path.memDir0 ∨ o.path = Path.memDir1 ∨ o.path = Path.memBoth) ∧
    o.state.randomBits = refill s.randomBits mic ∧
    (s.priorDir = 0 →
      o.state.moveEndTime = u32 (now + smallturn) ∧
      (classify l r lwhiteval rwhiteval = Sense.bothWhite →
        o.cmd = some (0, rspd) ∧ o.state.lastMove = 1) ∧
      (classify l r lwhiteval rwhiteval = Sense.bothBlack →
        o.cmd = some (lspd, 0) ∧ o.state.lastMove = 2)) ∧
    (s.priorDir = 1 →
      o.state.moveEndTime = u32 (now + smallturn) ∧
      (classify l r lwhiteval rwhiteval = Sense.bothWhite →
        o.cmd = some (lspd, 0) ∧ o.state.lastMove = 2) ∧
      (classify l r lwhiteval rwhiteval = Sense.bothBlack →
        o.cmd = some (0, rspd) ∧ o.state.lastMove = 1)) ∧
    (o.state.moveEndTime = u32 (now + bigturn) ↔ (s.priorDir ≠ 0 ∧ s.priorDir ≠ 1)) ∧
    (s.priorDir ≤ 2 → (o.state.moveEndTime = u32 (now + bigturn) ↔ s.priorDir = 2)) ∧
    ((o.cmd = some (0, rspd) ∧ o.state.lastMove = 1) ∨
      (o.cmd = some (lspd, 0) ∧ o.state.lastMove = 2)) ∧
    (now + bigturn < 4294967296 → s.priorDir ≤ 1 → o.state.moveEndTime = now + smallturn) := by
  have hbig : (o.state.moveEndTime = u32 (now + bigturn) ↔ (s.priorDir ≠ 0 ∧ s.priorDir ≠ 1)) ∧
      (o.path = Path.memDir0 ∨ o.path = Path.memDir1 ∨ o.path = Path.memBoth) ∧
      o.state.randomBits = refill s.randomBits mic ∧
      ((o.cmd = some (0, rspd) ∧ o.state.lastMove = 1) ∨
        (o.cmd = some (lspd, 0) ∧ o.state.lastMove = 2)) ∧
      (s.priorDir ≤ 1 → o.state.moveEndTime = u32 (now + smallturn)) ∧
      (s.priorDir = 0 →
        (classify l r lwhiteval rwhiteval = Sense.bothWhite →
          o.cmd = some (0, rspd) ∧ o.state.lastMove = 1) ∧
        (classify l r lwhiteval rwhiteval = Sense.bothBlack →
          o.cmd = some (lspd, 0) ∧ o.state.lastMove = 2)) ∧
      (s.priorDir = 1 →
        (classify l r lwhiteval rwhiteval = Sense.bothWhite →
          o.cmd = some (lspd, 0) ∧ o.state.lastMove = 2) ∧
        (classify l r lwhiteval rwhiteval = Sense.bothBlack →
          o.cmd = some (0, rspd) ∧ o.state.lastMove = 1)) := by
    have hne := u32_small_ne_big now
    rcases hmem with ⟨hc, hm⟩ | ⟨hc, hm⟩
    · have hc2 : classify (Tick.atTime now l r mic).lsenseval (Tick.atTime now l r mic).rsenseval
          lwhiteval rwhiteval = Sense.bothWhite := hc
      rw [step_of_bothWhite hc2] at ho
      subst ho
      by_cases h0 : s.priorDir = 0
      · simp [bothWhiteBranch, Tick.atTime, hm, h0, hc, hne]
      · by_cases h1 : s.priorDir = 1
        · simp [bothWhiteBranch, Tick.atTime, hm, h1, hc, hne]
        · have h2 : ¬ s.priorDir ≤ 1 := by omega
          simp [bothWhiteBranch, Tick.atTime, hm, h0, h1, h2, hc]
    · have hc2 : classify (Tick.atTime now l r mic).lsenseval (Tick.atTime now l r mic).rsenseval
          lwhiteval rwhiteval = Sense.bothBlack := hc
      rw [step_of_bothBlack hc2] at ho
      subst ho
      by_cases h0 : s.priorDir = 0
      · simp [bothBlackBranch, Tick.atTime, hm, h0, hc, hne]
      · by_cases h1 : s.priorDir = 1
        · simp [bothBlackBranch, Tick.atTime, hm, h1, hc, hne]
        · have h2 : ¬ s.priorDir ≤ 1 := by omega
          simp [bothBlackBranch, Tick.atTime, hm, h0, h1, h2, hc]
  obtain ⟨hb, hp, hr, hcmd, hsmall, hd0, hd1⟩ := hbig
  refine ⟨hp, hr, ?_, ?_, hb, ?_, hcmd, ?_⟩
  · intro h0
    exact ⟨hsmall (by omega), hd0 h0⟩
  · intro h1
    exact ⟨hsmall (by omega), hd1 h1⟩
  · intro h2
    rw [hb]; omega
  · intro hT h1
    rw [hsmall h1]
    apply u32_of_lt
    simp only [smallturn, bigturn] at hT ⊢
    omega

/-- Witness of C3: an edge at t=1000 with the right side black stores
`prior = 2000`, `priorDir = 1`; a both-white tick at t=1500 then turns right
with `moveEndTime = 1700`. -/
theorem followEdge_memory_turn_witness :
    (followEdgeStep 500 500 (initEngine 5) (Tick.atTime 1000 2400 800 0)).state.prior = 2000 ∧
    (followEdgeStep 500 500 (initEngine 5) (Tick.atTime 1000 2400 800 0)).state.priorDir = 1 ∧
    (followEdgeStep 500 500
        (followEdgeStep 500 500 (initEngine 5) (Tick.atTime 1000 2400 800 0)).state
        (Tick.atTime 1500 2400 2400 0)).cmd = some (lspd, 0) ∧
    (followEdgeStep 500 500
        (followEdgeStep 500 500 (initEngine 5) (Tick.atTime 1000 2400 800 0)).state
        (Tick.atTime 1500 2400 2400 0)).state.moveEndTime = 1700 :=
  have h := followEdge_memory_turn 500 500
    (followEdgeStep 500 500 (initEngine 5) (Tick.atTime 1000 2400 800 0)).state
    1500 2400 2400 0 _ rfl (Or.inl ⟨by decide, Or.inr (by decide)⟩)
  ⟨by decide, by decide, (h.2.2.2.1 (by decide)).2.1 (by decide) |>.1,
    h.2.2.2.2.2.2.2 (by decide) (by decide)⟩

/-! ## Frame of the memory slot -/

theorem bothWhiteBranch_frame (s : Engine) (c : Tick) :
    (bothWhiteBranch s c).state.prior = s.prior ∧
    (bothWhiteBranch s c).state.priorDir = s.priorDir := by
  unfold bothWhiteBranch
  repeat' split
  all_goals exact ⟨rfl, rfl⟩

theorem bothBlackBranch_frame (s : Engine) (c : Tick) :
    (bothBlackBranch s c).state.prior = s.prior ∧
    (bothBlackBranch s c).state.priorDir = s.priorDir := by
  unfold bothBlackBranch
  repeat' split
  all_goals exact ⟨rfl, rfl⟩

theorem step_frame_of_not_edge {lw rw : Nat} {c : Tick}
    (h : classify c.lsenseval c.rsenseval lw rw ≠ Sense.edge) (s : Engine) :
    (followEdgeStep lw rw s c).state.prior = s.prior ∧
    (followEdgeStep lw rw s c).state.priorDir = s.priorDir := by
  cases hc : classify c.lsenseval c.rsenseval lw rw
  · exact absurd hc h
  · rw [step_of_bothWhite hc]
    exact bothWhiteBranch_frame _ c
  · rw [step_of_bothBlack hc]
    exact bothBlackBranch_frame _ c

theorem runFrom_cons (lw rw : Nat) (s : Engine) (c : Tick) (cs : List Tick) :
    runFrom lw rw s (c :: cs) = runFrom lw rw (followEdgeStep lw rw s c).state cs := rfl

theorem runFrom_append (lw rw : Nat) (s : Engine) (xs ys : List Tick) :
    runFrom lw rw s (xs ++ ys) = runFrom lw rw (runFrom lw rw s xs) ys := by
  simp [runFrom, List.foldl_append]

theorem runFrom_frame_of_no_edge (lw rw : Nat) (ticks : List Tick) :
    ∀ s : Engine, (∀ c ∈ ticks, classify c.lsenseval c.rsenseval lw rw ≠ Sense.edge) →
      (runFrom lw rw s ticks).prior = s.prior ∧ (runFrom lw rw s ticks).priorDir = s.priorDir := by
  induction ticks with
  | nil => intro s _; exact ⟨rfl, rfl⟩
  | cons c cs ih =>
    intro s h
    rw [runFrom_cons]
    have h1 := step_frame_of_not_edge (h c (List.mem_cons_self c cs)) s
    have h2 := ih (followEdgeStep lw rw s c).state
      (fun d hd => h d (List.mem_cons_of_mem c hd))
    exact ⟨h2.1.trans h1.1, h2.2.trans h1.2⟩

/-! ## C4: the initial memory -/

/-- C4, refuted as stated. The initial `priorDir` is 0 (left), not 2. On the
first tick of a run, both black at time 0 (memory branch, since `lastSense`
starts at 1), the engine turns right with `moveEndTime = 0 + smallturn`, not
`0 + bigturn`; a both-white tick at time 20 right after it (memory branch, since
`lastSense` is now 2) turns left with `moveEndTime = 20 + smallturn`, not
`20 + bigturn`. No edge tick has occurred. -/
theorem followEdge_initial_memory_counterexample :
    (initEngine 5).priorDir = 0 ∧ (initEngine 5).priorDir ≠ 2 ∧
    classify 800 800 500 500 = Sense.bothBlack ∧ (initEngine 5).lastSense = 1 ∧
    (followEdgeStep 500 500 (initEngine 5) (Tick.atTime 0 800 800 0)).cmd = some (lspd, 0) ∧
    (followEdgeStep 500 500 (initEngine 5) (Tick.atTime 0 800 800 0)).state.moveEndTime
        = 0 + smallturn ∧
    ¬ ((followEdgeStep 500 500 (initEngine 5) (Tick.atTime 0 800 800 0)).state.moveEndTime
        = 0 + bigturn) ∧
    classify 2400 2400 500 500 = Sense.bothWhite ∧
    (followEdge 500 500 5 [Tick.atTime 0 800 800 0]).lastSense = 2 ∧
    (followEdgeStep 500 500 (followEdge 500 500 5 [Tick.atTime 0 800 800 0])
        (Tick.atTime 20 2400 2400 0)).cmd = some (0, rspd) ∧
    (followEdgeStep 500 500 (followEdge 500 500 5 [Tick.atTime 0 800 800 0])
        (Tick.atTime 20 2400 2400 0)).state.moveEndTime = 20 + smallturn ∧
    ¬ ((followEdgeStep 500 500 (followEdge 500 500 5 [Tick.atTime 0 800 800 0])
        (Tick.atTime 20 2400 2400 0)).state.moveEndTime = 20 + bigturn) := by
  decide

/-- C4, amended. In the initial state `priorDir` is 0 (left). For every
execution from the initial state in which no edge tick has occurred, `priorDir`
is still 0 and `prior` is still 0; a both-white tick at time `now` that takes
the memory branch (`lastSense == 2 || now < prior`) issues a left turn
`(0, rspd)` with `moveEndTime = now + smallturn`, and a both-black tick that
takes the memory branch (`lastSense == 1 || now < prior`), such as a both-black
first tick of the run, issues a right turn `(lspd, 0)` with
`moveEndTime = now + smallturn`. Neither uses `bigturn`. -/
theorem followEdge_initial_memory (lwhiteval rwhiteval seed : Nat) (pre : List Tick)
    (hpre : ∀ c ∈ pre, classify c.lsenseval c.rsenseval lwhiteval rwhiteval ≠ Sense.edge)
    (now l r mic : Nat) (o : Outcome)
    (ho : o = followEdgeStep lwhiteval rwhiteval (followEdge lwhiteval rwhiteval seed pre)
                (Tick.atTime now l r mic)) :
    (initEngine seed).priorDir = 0 ∧
    (followEdge lwhiteval rwhiteval seed pre).priorDir = 0 ∧
    (followEdge lwhiteval rwhiteval seed pre).prior = 0 ∧
    (classify l r lwhiteval rwhiteval = Sense.bothWhite →
      ((followEdge lwhiteval rwhiteval seed pre).lastSense = 2 ∨
        now < (followEdge lwhiteval rwhiteval seed pre).prior) →
      o.cmd = some (0, rspd) ∧ o.state.lastMove = 1 ∧ o.path = Path.memDir0 ∧
      o.state.moveEndTime = u32 (now + smallturn) ∧
      o.state.moveEndTime ≠ u32 (now + bigturn)) ∧
    (classify l r lwhiteval rwhiteval = Sense.bothBlack →
      ((followEdge lwhiteval rwhiteval seed pre).lastSense = 1 ∨
        now < (followEdge lwhiteval rwhiteval seed pre).prior) →
      o.cmd = some (lspd, 0) ∧ o.state.lastMove = 2 ∧ o.path = Path.memDir0 ∧
      o.state.moveEndTime = u32 (now + smallturn) ∧
      o.state.moveEndTime ≠ u32 (now + bigturn)) ∧
    (pre = [] → classify l r lwhiteval rwhiteval = Sense.bothBlack →
      o.cmd = some (lspd, 0) ∧ o.state.moveEndTime = u32 (now + smallturn)) := by
  have hf := runFrom_frame_of_no_edge lwhiteval rwhiteval pre (initEngine seed) hpre
  have hdir : (followEdge lwhiteval rwhiteval seed pre).priorDir = 0 := hf.2
  have hprior : (followEdge lwhiteval rwhiteval seed pre).prior = 0 := hf.1
  have hne := u32_small_ne_big now
  have hW : classify l r lwhiteval rwhiteval = Sense.bothWhite →
      ((followEdge lwhiteval rwhiteval seed pre).lastSense = 2 ∨
        now < (followEdge lwhiteval rwhiteval seed pre).prior) →
      o.cmd = some (0, rspd) ∧ o.state.lastMove = 1 ∧ o.path = Path.memDir0 ∧
      o.state.moveEndTime = u32 (now + smallturn) ∧
      o.state.moveEndTime ≠ u32 (now + bigturn) := by
    intro hc hm
    have hc2 : classify (Tick.atTime now l r mic).lsenseval (Tick.atTime now l r mic).rsenseval
        lwhiteval rwhiteval = Sense.bothWhite := hc
    rw [step_of_bothWhite hc2] at ho
    subst ho
    simp [bothWhiteBranch, Tick.atTime, hm, hdir, hne]
  have hB : classify l r lwhiteval rwhiteval = Sense.bothBlack →
      ((followEdge lwhiteval rwhiteval seed pre).lastSense = 1 ∨
        now < (followEdge lwhiteval rwhiteval seed pre).prior) →
      o.cmd = some (lspd, 0) ∧ o.state.lastMove = 2 ∧ o.path = Path.memDir0 ∧
      o.state.moveEndTime = u32 (now + smallturn) ∧
      o.state.moveEndTime ≠ u32 (now + bigturn) := by
    intro hc hm
    have hc2 : classify (Tick.atTime now l r mic).lsenseval (Tick.atTime now l r mic).rsenseval
        lwhiteval rwhiteval = Sense.bothBlack := hc
    rw [step_of_bothBlack hc2] at ho
    subst ho
    simp [bothBlackBranch, Tick.atTime, hm, hdir, hne]
  refine ⟨rfl, hdir, hprior, hW, hB, ?_⟩
  intro hnil hc
  have hm : (followEdge lwhiteval rwhiteval seed pre).lastSense = 1 := by
    subst hnil; rfl
  have h := hB hc (Or.inl hm)
  exact ⟨h.1, h.2.2.2.1⟩

/-- Witness of the amended C4: a both-black first tick at time 0, then a
both-white tick at time 20. -/
theorem followEdge_initial_memory_witness :
    (followEdgeStep 500 500 (followEdge 500 500 5 [Tick.atTime 0 800 800 0])
        (Tick.atTime 20 2400 2400 0)).cmd = some (0, rspd) ∧
    (followEdgeStep 500 500 (followEdge 500 500 5 [Tick.atTime 0 800 800 0])
        (Tick.atTime 20 2400 2400 0)).state.moveEndTime = u32 (20 + smallturn) :=
  have h := (followEdge_initial_memory 500 500 5 [Tick.atTime 0 800 800 0] (by decide)
    20 2400 2400 0 _ rfl).2.2.2.1 (by decide) (Or.inl (by decide))
  ⟨h.1, h.2.2.2.1⟩

/-! ## Shape of one iteration -/

/-- What an iteration does to `lastMove` and `moveEndTime`, by command issued. -/
theorem step_shape (lw rw : Nat) (s : Engine) (c : Tick) :
    ((followEdgeStep lw rw s c).path = Path.hold ∧ (followEdgeStep lw rw s c).cmd = none ∧
      (followEdgeStep lw rw s c).state.lastMove = s.lastMove ∧
      (followEdgeStep lw rw s c).state.moveEndTime = s.moveEndTime) ∨
    ((followEdgeStep lw rw s c).path ≠ Path.hold ∧
      (followEdgeStep lw rw s c).cmd = some (lspd, rspd) ∧
      (followEdgeStep lw rw s c).state.lastMove = 0 ∧
      (followEdgeStep lw rw s c).state.moveEndTime = u32 (c.tMove + steplength)) ∨
    ((followEdgeStep lw rw s c).path ≠ Path.hold ∧
      (followEdgeStep lw rw s c).cmd = some (0, rspd) ∧
      (followEdgeStep lw rw s c).state.lastMove = 1) ∨
    ((followEdgeStep lw rw s c).path ≠ Path.hold ∧
      (followEdgeStep lw rw s c).cmd = some (lspd, 0) ∧
      (followEdgeStep lw rw s c).state.lastMove = 2) := by
  cases hc : classify c.lsenseval c.rsenseval lw rw
  · rw [step_of_edge hc]; simp [edgeBranch]
  · rw [step_of_bothWhite hc]
    unfold bothWhiteBranch
    repeat' split
    all_goals simp
  · rw [step_of_bothBlack hc]
    unfold bothBlackBranch
    repeat' split
    all_goals simp

theorem bothWhiteBranch_walkTurn (s : Engine) (c : Tick)
    (h : (bothWhiteBranch s c).path = Path.walkTurn) :
    s.lastMove = 0 ∧ s.moveEndTime ≤ c.tHold ∧ ¬ c.tMem < s.prior ∧
    (bothWhiteBranch s c).state.randomBits = s.randomBits >>> 1 ∧
    (bothWhiteBranch s c).state.moveEndTime = u32 (c.tMove + smallturn) ∧
    (s.randomBits &&& 1 ≠ 0 →
      (bothWhiteBranch s c).cmd = some (0, rspd) ∧ (bothWhiteBranch s c).state.lastMove = 1) ∧
    (s.randomBits &&& 1 = 0 →
      (bothWhiteBranch s c).cmd = some (lspd, 0) ∧ (bothWhiteBranch s c).state.lastMove = 2) := by
  by_cases hm : s.lastSense = 2 ∨ c.tMem < s.prior
  · exfalso
    rw [bothWhiteBranch, if_pos hm] at h
    by_cases h0 : s.priorDir = 0
    · rw [if_pos h0] at h; cases h
    · rw [if_neg h0] at h
      by_cases h1 : s.priorDir = 1
      · rw [if_pos h1] at h; cases h
      · rw [if_neg h1] at h; cases h
  · by_cases hh : c.tHold < s.moveEndTime
    · rw [bothWhiteBranch, if_neg hm, if_pos hh] at h; cases h
    · by_cases hl : s.lastMove ≠ 0
      · rw [bothWhiteBranch, if_neg hm, if_neg hh, if_pos hl] at h; cases h
      · have hl0 : s.lastMove = 0 := not_not.mp hl
        have hp : ¬ c.tMem < s.prior := fun hlt => hm (Or.inr hlt)
        by_cases hb : s.randomBits &&& 1 ≠ 0
        · rw [bothWhiteBranch, if_neg hm, if_neg hh, if_neg hl, if_pos hb]
          exact ⟨hl0, by omega, hp, rfl, rfl, fun _ => ⟨rfl, rfl⟩, fun hz => absurd hz hb⟩
        · rw [bothWhiteBranch, if_neg hm, if_neg hh, if_neg hl, if_neg hb]
          exact ⟨hl0, by omega, hp, rfl, rfl, fun hz => absurd hz hb, fun _ => ⟨rfl, rfl⟩⟩

theorem bothBlackBranch_walkTurn (s : Engine) (c : Tick)
    (h : (bothBlackBranch s c).path = Path.walkTurn) :
    s.lastMove = 0 ∧ s.moveEndTime ≤ c.tHold ∧ ¬ c.tMem < s.prior ∧
    (bothBlackBranch s c).state.randomBits = s.randomBits >>> 1 ∧
    (bothBlackBranch s c).state.moveEndTime = u32 (c.tMove + smallturn) ∧
    (s.randomBits &&& 1 ≠ 0 →
      (bothBlackBranch s c).cmd = some (0, rspd) ∧ (bothBlackBranch s c).state.lastMove = 1) ∧
    (s.randomBits &&& 1 = 0 →
      (bothBlackBranch s c).cmd = some (lspd, 0) ∧ (bothBlackBranch s c).state.lastMove = 2) := by
  by_cases hm : s.lastSense = 1 ∨ c.tMem < s.prior
  · exfalso
    rw [bothBlackBranch, if_pos hm] at h
    by_cases h0 : s.priorDir = 0
    · rw [if_pos h0] at h; cases h
    · rw [if_neg h0] at h
      by_cases h1 : s.priorDir = 1
      · rw [if_pos h1] at h; cases h
      · rw [if_neg h1] at h; cases h
  · by_cases hh : c.tHold < s.moveEndTime
    · rw [bothBlackBranch, if_neg hm, if_pos hh] at h; cases h
    · by_cases hl : s.lastMove ≠ 0
      · rw [bothBlackBranch, if_neg hm, if_neg hh, if_pos hl] at h; cases h
      · have hl0 : s.lastMove = 0 := not_not.mp hl
        have hp : ¬ c.tMem < s.prior := fun hlt => hm (Or.inr hlt)
        by_cases hb : s.randomBits &&& 1 ≠ 0
        · rw [bothBlackBranch, if_neg hm, if_neg hh, if_neg hl, if_pos hb]
          exact ⟨hl0, by omega, hp, rfl, rfl, fun _ => ⟨rfl, rfl⟩, fun hz => absurd hz hb⟩
        · rw [bothBlackBranch, if_neg hm, if_neg hh, if_neg hl, if_neg hb]
          exact ⟨hl0, by omega, hp, rfl, rfl, fun hz => absurd hz hb, fun _ => ⟨rfl, rfl⟩⟩

/-- What is known when an iteration ends in the random-walk turn. -/
theorem step_walkTurn (lw rw : Nat) (s : Engine) (c : Tick)
    (h : (followEdgeStep lw rw s c).path = Path.walkTurn) :
    s.lastMove = 0 ∧ s.moveEndTime ≤ c.tHold ∧ ¬ c.tMem < s.prior ∧
    classify c.lsenseval c.rsenseval lw rw ≠ Sense.edge ∧
    (followEdgeStep lw rw s c).state.randomBits = refill s.randomBits c.micros >>> 1 ∧
    (followEdgeStep lw rw s c).state.moveEndTime = u32 (c.tMove + smallturn) ∧
    (refill s.randomBits c.micros &&& 1 ≠ 0 →
      (followEdgeStep lw rw s c).cmd = some (0, rspd) ∧
      (followEdgeStep lw rw s c).state.lastMove = 1) ∧
    (refill s.randomBits c.micros &&& 1 = 0 →
      (followEdgeStep lw rw s c).cmd = some (lspd, 0) ∧
      (followEdgeStep lw rw s c).state.lastMove = 2) := by
  cases hc : classify c.lsenseval c.rsenseval lw rw
  · rw [step_of_edge hc] at h; cases h
  · rw [step_of_bothWhite hc] at h ⊢
    obtain ⟨h1, h2, h3, h4, h5, h6, h7⟩ := bothWhiteBranch_walkTurn _ c h
    exact ⟨h1, h2, h3, by simp, h4, h5, h6, h7⟩
  · rw [step_of_bothBlack hc] at h ⊢
    obtain ⟨h1, h2, h3, h4, h5, h6, h7⟩ := bothBlackBranch_walkTurn _ c h
    exact ⟨h1, h2, h3, by simp, h4, h5, h6, h7⟩

theorem followEdgeLog_fst (lw rw seed : Nat) (ticks : List Tick) :
    (followEdgeLog lw rw seed ticks).1 = followEdge lw rw seed ticks := by
  unfold followEdgeLog followEdge runFrom
  generalize (none : Option (Nat × (Nat × Nat))) = l
  generalize initEngine seed = s
  induction ticks generalizing s l with
  | nil => rfl
  | cons c cs ih => simp only [List.foldl_cons]; exact ih _ _

theorem logStep_straightInForce (lw rw : Nat) (p : Engine × Option (Nat × (Nat × Nat)))
    (c : Tick) (hp : StraightInForce p) (hc : c.tMove + steplength < 4294967296) :
    StraightInForce (logStep lw rw p c) := by
  intro h0
  simp only [logStep] at h0 ⊢
  rcases step_shape lw rw p.1 c with h | h | h | h
  · obtain ⟨_, hcmd, hm, he⟩ := h
    rw [hm] at h0
    obtain ⟨t0, ht0, hme⟩ := hp h0
    exact ⟨t0, by rw [hcmd]; exact ht0, by rw [he]; exact hme⟩
  · obtain ⟨_, hcmd, _, he⟩ := h
    exact ⟨c.tMove, by rw [hcmd], by rw [he]; exact u32_of_lt hc⟩
  · obtain ⟨_, _, hm⟩ := h
    rw [hm] at h0; cases h0
  · obtain ⟨_, _, hm⟩ := h
    rw [hm] at h0; cases h0

theorem foldl_straightInForce (lw rw : Nat) (ticks : List Tick) :
    ∀ p : Engine × Option (Nat × (Nat × Nat)), StraightInForce p →
      (∀ c ∈ ticks, c.tMove + steplength < 4294967296) →
      StraightInForce (ticks.foldl (logStep lw rw) p) := by
  induction ticks with
  | nil => intro p hp _; exact hp
  | cons c cs ih =>
    intro p hp h
    simp only [List.foldl_cons]
    exact ih _ (logStep_straightInForce lw rw p c hp (h c (List.mem_cons_self c cs)))
      (fun d hd => h d (List.mem_cons_of_mem c hd))

/-! ## C5: the random walk never turns twice in a row -/

/-- C5. For every execution from the initial state in which no addition
`millis()+steplength` wraps, whenever a tick at time `t` ends in the random-walk
turn (and so issues a left or a right turn): before the tick `lastMove` is 0
(straight) and `moveEndTime ≤ t`, the most recent call of `move` before it was
`move(lspd, rspd)`, made at some time `t0`, and `t0 + steplength ≤ t`, so the
straight command has been in force for at least `steplength` since the turn
before it. The order of the clock readings is not needed. -/
theorem followEdge_walk_turn_after_straight (lwhiteval rwhiteval seed : Nat) (pre : List Tick)
    (hwrap : ∀ c ∈ pre, c.tMove + steplength < 4294967296)
    (t l r mic : Nat) (o : Outcome)
    (ho : o = followEdgeStep lwhiteval rwhiteval (followEdge lwhiteval rwhiteval seed pre)
                (Tick.atTime t l r mic))
    (hturn : o.path = Path.walkTurn) :
    (o.cmd = some (0, rspd) ∨ o.cmd = some (lspd, 0)) ∧
    (followEdge lwhiteval rwhiteval seed pre).lastMove = 0 ∧
    (followEdge lwhiteval rwhiteval seed pre).moveEndTime ≤ t ∧
    ∃ t0, (followEdgeLog lwhiteval rwhiteval seed pre).2 = some (t0, (lspd, rspd)) ∧
      (followEdge lwhiteval rwhiteval seed pre).moveEndTime = t0 + steplength ∧
      t0 + steplength ≤ t := by
  subst ho
  obtain ⟨h0, hle, _, _, _, _, hodd, heven⟩ := step_walkTurn _ _ _ _ hturn
  have hinv : StraightInForce (followEdgeLog lwhiteval rwhiteval seed pre) :=
    foldl_straightInForce lwhiteval rwhiteval pre (initEngine seed, none)
      (fun h => by cases h) hwrap
  have h0' : (followEdgeLog lwhiteval rwhiteval seed pre).1.lastMove = 0 := by
    rw [followEdgeLog_fst]; exact h0
  obtain ⟨t0, hlog, hme⟩ := hinv h0'
  rw [followEdgeLog_fst] at hme
  have hle' : (followEdge lwhiteval rwhiteval seed pre).moveEndTime ≤ t := hle
  refine ⟨?_, h0, hle', t0, hlog, hme, by omega⟩
  by_cases hb : refill (followEdge lwhiteval rwhiteval seed pre).randomBits
      (Tick.atTime t l r mic).micros &&& 1 = 0
  · exact Or.inr (heven hb).1
  · exact Or.inl (hodd hb).1

/-- Witness of C5: random walk on white from the initial state, straight at time 0,
turn at time 300. -/
theorem followEdge_walk_turn_after_straight_witness :
    (followEdge 500 500 1 [Tick.atTime 0 2400 2400 0]).lastMove = 0 ∧
    (followEdge 500 500 1 [Tick.atTime 0 2400 2400 0]).moveEndTime ≤ 300 ∧
    ∃ t0, (followEdgeLog 500 500 1 [Tick.atTime 0 2400 2400 0]).2 = some (t0, (lspd, rspd)) ∧
      (followEdge 500 500 1 [Tick.atTime 0 2400 2400 0]).moveEndTime = t0 + steplength ∧
      t0 + steplength ≤ 300 :=
  (followEdge_walk_turn_after_straight 500 500 1 [Tick.atTime 0 2400 2400 0] (by decide)
    300 2400 2400 0 _ rfl (by decide)).2

/-! ## C6: the random pool -/

/-- An iteration either ends in the random-walk turn, and then `lastMove` is not 0
afterwards, or leaves the pool as the refill check left it. -/
theorem step_pool (lw rw : Nat) (s : Engine) (c : Tick) :
    ((followEdgeStep lw rw s c).path = Path.walkTurn ∧
      (followEdgeStep lw rw s c).state.lastMove ≠ 0) ∨
    ((followEdgeStep lw rw s c).path ≠ Path.walkTurn ∧
      (followEdgeStep lw rw s c).state.randomBits = refill s.randomBits c.micros) := by
  cases hc : classify c.lsenseval c.rsenseval lw rw
  · rw [step_of_edge hc]; simp [edgeBranch]
  · rw [step_of_bothWhite hc]
    unfold bothWhiteBranch
    repeat' split
    all_goals simp
  · rw [step_of_bothBlack hc]
    unfold bothBlackBranch
    repeat' split
    all_goals simp

theorem refill_eq_zero_iff (randomBits micros : Nat) :
    refill randomBits micros = 0 ↔ (randomBits = 0 ∧ micros = 0) := by
  unfold refill
  by_cases hz : randomBits = 0
  · rw [if_pos hz]; exact ⟨fun h => ⟨hz, h⟩, fun h => h.2⟩
  · rw [if_neg hz]; exact ⟨fun h => absurd h hz, fun h => h.1⟩

/-- The pool at the test of `randomBits & 1`. For every execution from the
initial state and every further tick that ends in the random-walk turn, the
value tested is the one the refill check of line 119 left: it picks the turn
and the pool becomes that value shifted right by one. It is zero exactly when
the pool was empty and `micros()` returned 0 at line 119, and then `micros()`
returned 0 at line 119 of the iteration before as well. -/
theorem pool_read (lwhiteval rwhiteval seed : Nat) (pre : List Tick) (c : Tick)
    (o : Outcome)
    (ho : o = followEdgeStep lwhiteval rwhiteval (followEdge lwhiteval rwhiteval seed pre) c)
    (hturn : o.path = Path.walkTurn) :
    (refill (followEdge lwhiteval rwhiteval seed pre).randomBits c.micros &&& 1 ≠ 0 →
      o.cmd = some (0, rspd)) ∧
    (refill (followEdge lwhiteval rwhiteval seed pre).randomBits c.micros &&& 1 = 0 →
      o.cmd = some (lspd, 0)) ∧
    o.state.randomBits
      = refill (followEdge lwhiteval rwhiteval seed pre).randomBits c.micros >>> 1 ∧
    (c.micros ≠ 0 →
      refill (followEdge lwhiteval rwhiteval seed pre).randomBits c.micros ≠ 0) ∧
    ((followEdge lwhiteval rwhiteval seed pre).randomBits ≠ 0 →
      refill (followEdge lwhiteval rwhiteval seed pre).randomBits c.micros ≠ 0) ∧
    (refill (followEdge lwhiteval rwhiteval seed pre).randomBits c.micros = 0 ↔
      ((followEdge lwhiteval rwhiteval seed pre).randomBits = 0 ∧ c.micros = 0)) ∧
    (refill (followEdge lwhiteval rwhiteval seed pre).randomBits c.micros = 0 →
      ∃ pre1 d, pre = pre1 ++ [d] ∧ d.micros = 0 ∧ c.micros = 0) := by
  subst ho
  obtain ⟨hl0, _, _, _, hrb, _, hodd, heven⟩ := step_walkTurn _ _ _ _ hturn
  have hiff := refill_eq_zero_iff (followEdge lwhiteval rwhiteval seed pre).randomBits c.micros
  refine ⟨fun h => (hodd h).1, fun h => (heven h).1, hrb, ?_, ?_, hiff, ?_⟩
  · intro hm h
    exact hm (hiff.1 h).2
  · intro hm h
    exact hm (hiff.1 h).1
  · intro h
    obtain ⟨hz, hm⟩ := hiff.1 h
    rcases List.eq_nil_or_concat pre with hnil | ⟨pre1, d, hpre⟩
    · subst hnil
      have h1 : (followEdge lwhiteval rwhiteval seed []).lastMove = 1 := rfl
      rw [h1] at hl0
      cases hl0
    · rw [List.concat_eq_append] at hpre
      subst hpre
      refine ⟨pre1, d, rfl, ?_, hm⟩
      have hrun : followEdge lwhiteval rwhiteval seed (pre1 ++ [d]) =
          (followEdgeStep lwhiteval rwhiteval (followEdge lwhiteval rwhiteval seed pre1) d).state := by
        simp [followEdge, runFrom, List.foldl_append]
      rw [hrun] at hl0 hz
      rcases step_pool lwhiteval rwhiteval (followEdge lwhiteval rwhiteval seed pre1) d with
        ⟨_, hne⟩ | ⟨_, heq⟩
      · exact absurd hl0 hne
      · rw [heq] at hz
        exact ((refill_eq_zero_iff _ _).1 hz).2

theorem timerRuns_last (pre1 : List Tick) (d c : Tick)
    (h : timerRuns (pre1 ++ [d] ++ [c]) = true) : timerAdvances d c = true := by
  induction pre1 with
  | nil =>
    simp only [List.nil_append, List.singleton_append, timerRuns, Bool.and_true] at h
    exact h
  | cons x xs ih =>
    apply ih
    cases xs with
    | nil =>
      simp only [List.nil_append, List.singleton_append, List.cons_append, timerRuns,
        Bool.and_true, Bool.and_eq_true] at h ⊢
      exact h.2
    | cons y ys =>
      simp only [List.cons_append, timerRuns, Bool.and_eq_true] at h ⊢
      exact h.2

theorem timerAdvances_zero (d c : Tick) (hd : d.micros = 0) (hc : c.micros = 0) :
    timerAdvances d c = false := by
  simp [timerAdvances, hd, hc, u32]

/-- C6. For every execution from the initial state, for every seed (zero
included) and every sequence of readings of `micros()` at line 119 that a
running timer can give (`timerRuns`: consecutive iterations are at least 19 ms
apart and the counter wraps only every 2^32 microseconds), and for every tick
that consumes a random bit (ends in the random-walk turn): the value of
`randomBits` at the moment its lowest bit is tested is nonzero. That value is
the one the refill check at the top of the tick left, it picks the turn (odd:
left, even: right), and the pool becomes that value shifted right by one. -/
theorem followEdge_pool_nonzero (lwhiteval rwhiteval seed : Nat) (pre : List Tick) (c : Tick)
    (hclock : timerRuns (pre ++ [c]) = true)
    (o : Outcome)
    (ho : o = followEdgeStep lwhiteval rwhiteval (followEdge lwhiteval rwhiteval seed pre) c)
    (hturn : o.path = Path.walkTurn) :
    refill (followEdge lwhiteval rwhiteval seed pre).randomBits c.micros ≠ 0 ∧
    refill (followEdge lwhiteval rwhiteval seed pre).randomBits c.micros
      = (if (followEdge lwhiteval rwhiteval seed pre).randomBits = 0 then c.micros
         else (followEdge lwhiteval rwhiteval seed pre).randomBits) ∧
    (refill (followEdge lwhiteval rwhiteval seed pre).randomBits c.micros &&& 1 ≠ 0 →
      o.cmd = some (0, rspd)) ∧
    (refill (followEdge lwhiteval rwhiteval seed pre).randomBits c.micros &&& 1 = 0 →
      o.cmd = some (lspd, 0)) ∧
    o.state.randomBits
      = refill (followEdge lwhiteval rwhiteval seed pre).randomBits c.micros >>> 1 := by
  have h := pool_read lwhiteval rwhiteval seed pre c o ho hturn
  refine ⟨?_, rfl, h.1, h.2.1, h.2.2.1⟩
  intro hz
  obtain ⟨pre1, d, hpre, hd, hc⟩ := h.2.2.2.2.2.2 hz
  subst hpre
  have hadv := timerRuns_last pre1 d c hclock
  rw [timerAdvances_zero d c hd hc] at hadv
  cases hadv

/-- Witness of C6: seed 1, both white throughout. The turn at time 300 empties
the pool; at time 500 the refill check reads `micros()` just as the counter has
wrapped to 0, so the pool stays empty through the straight step; at time 800
the refill check reads 300000 and the turn tests that value. -/
theorem followEdge_pool_nonzero_witness :
    (followEdge 500 500 1
      [Tick.atTime 0 2400 2400 4294467296, Tick.atTime 300 2400 2400 4294767296,
       Tick.atTime 500 2400 2400 0]).randomBits = 0 ∧
    refill (followEdge 500 500 1
      [Tick.atTime 0 2400 2400 4294467296, Tick.atTime 300 2400 2400 4294767296,
       Tick.atTime 500 2400 2400 0]).randomBits
      (Tick.atTime 800 2400 2400 300000).micros ≠ 0 :=
  ⟨by decide,
    (followEdge_pool_nonzero 500 500 1
      [Tick.atTime 0 2400 2400 4294467296, Tick.atTime 300 2400 2400 4294767296,
       Tick.atTime 500 2400 2400 0]
      (Tick.atTime 800 2400 2400 300000) (by decide) _ rfl (by decide)).1⟩

/-! ## C7: only the edge branch writes the memory -/

/-- C7. For every state and every tick classified both white or both black,
whichever leaf it ends in (memory turn, hold, random-walk straight, random-walk
turn), `prior` and `priorDir` after the tick are those before the tick. -/
theorem followEdge_memory_frame (lwhiteval rwhiteval : Nat) (s : Engine) (c : Tick)
    (h : classify c.lsenseval c.rsenseval lwhiteval rwhiteval = Sense.bothWhite ∨
         classify c.lsenseval c.rsenseval lwhiteval rwhiteval = Sense.bothBlack) :
    (followEdgeStep lwhiteval rwhiteval s c).state.prior = s.prior ∧
    (followEdgeStep lwhiteval rwhiteval s c).state.priorDir = s.priorDir ∧
    (followEdgeStep lwhiteval rwhiteval s c).path ≠ Path.edge := by
  have hne : classify c.lsenseval c.rsenseval lwhiteval rwhiteval ≠ Sense.edge := by
    rcases h with h | h <;> rw [h] <;> decide
  have hf := step_frame_of_not_edge hne s
  refine ⟨hf.1, hf.2, ?_⟩
  rw [Ne, step_path_edge_iff]
  exact hne

/-- Witness of C7: a memory turn on white at time 1500 after an edge at time 1000
keeps `prior = 2000` and `priorDir = 1`. -/
theorem followEdge_memory_frame_witness :
    (followEdgeStep 500 500 (followEdge 500 500 5 [Tick.atTime 1000 2400 800 0])
      (Tick.atTime 1500 2400 2400 0)).state.prior = 2000 ∧
    (followEdgeStep 500 500 (followEdge 500 500 5 [Tick.atTime 1000 2400 800 0])
      (Tick.atTime 1500 2400 2400 0)).state.priorDir = 1 :=
  have h := followEdge_memory_frame 500 500 (followEdge 500 500 5 [Tick.atTime 1000 2400 800 0])
    (Tick.atTime 1500 2400 2400 0) (Or.inl (by decide))
  ⟨h.1.trans (by decide), h.2.1.trans (by decide)⟩

/-! ## C8: the deadline is only extended -/

theorem u32_le (n : Nat) : u32 n ≤ n := by
  unfold u32; exact Nat.mod_le _ _

theorem step_prior (lw rw : Nat) (s : Engine) (c : Tick) :
    (classify c.lsenseval c.rsenseval lw rw ≠ Sense.edge ∧
      (followEdgeStep lw rw s c).state.prior = s.prior) ∨
    (classify c.lsenseval c.rsenseval lw rw = Sense.edge ∧
      (followEdgeStep lw rw s c).state.prior = u32 (c.tPrior + memtime)) := by
  by_cases hc : classify c.lsenseval c.rsenseval lw rw = Sense.edge
  · right
    rw [step_of_edge hc]
    exact ⟨hc, rfl⟩
  · left
    exact ⟨hc, (step_frame_of_not_edge hc s).1⟩

theorem runFrom_prior_le (lw rw B : Nat) (ticks : List Tick) :
    ∀ s : Engine, s.prior ≤ B + memtime → (∀ d ∈ ticks, d.tPrior ≤ B) →
      (runFrom lw rw s ticks).prior ≤ B + memtime := by
  induction ticks with
  | nil => intro s hs _; exact hs
  | cons c cs ih =>
    intro s hs h
    rw [runFrom_cons]
    apply ih _ _ (fun d hd => h d (List.mem_cons_of_mem c hd))
    rcases step_prior lw rw s c with ⟨_, he⟩ | ⟨_, he⟩
    · rw [he]; exact hs
    · rw [he]
      have h1 := u32_le (c.tPrior + memtime)
      have h2 := h c (List.mem_cons_self c cs)
      omega

/-- C8. For every execution from the initial state (where `prior = 0`) whose
readings of `millis()` at line 173 are non-decreasing along the run, and every
tick of it for which `millis() + memtime` does not overflow 32 bits: `prior`
after the tick is at least `prior` before the tick, and it differs from the
value before only if the tick is classified as edge. -/
theorem followEdge_prior_extended (lwhiteval rwhiteval seed : Nat) (pre : List Tick) (c : Tick)
    (hmono : List.Pairwise (fun a b : Tick => a.tPrior ≤ b.tPrior) (pre ++ [c]))
    (hwrap : c.tPrior + memtime < 4294967296) :
    (initEngine seed).prior = 0 ∧
    (followEdge lwhiteval rwhiteval seed pre).prior
      ≤ (followEdgeStep lwhiteval rwhiteval (followEdge lwhiteval rwhiteval seed pre) c).state.prior ∧
    ((followEdgeStep lwhiteval rwhiteval (followEdge lwhiteval rwhiteval seed pre) c).state.prior
        ≠ (followEdge lwhiteval rwhiteval seed pre).prior →
      classify c.lsenseval c.rsenseval lwhiteval rwhiteval = Sense.edge) := by
  have hle : ∀ d ∈ pre, d.tPrior ≤ c.tPrior := by
    intro d hd
    exact (List.pairwise_append.1 hmono).2.2 d hd c (List.mem_singleton_self c)
  have hinv : (followEdge lwhiteval rwhiteval seed pre).prior ≤ c.tPrior + memtime :=
    runFrom_prior_le lwhiteval rwhiteval c.tPrior pre (initEngine seed)
      (Nat.zero_le _) hle
  refine ⟨rfl, ?_, ?_⟩
  · rcases step_prior lwhiteval rwhiteval (followEdge lwhiteval rwhiteval seed pre) c with
      ⟨_, he⟩ | ⟨_, he⟩
    · rw [he]
    · rw [he, u32_of_lt hwrap]; exact hinv
  · intro hne
    rcases step_prior lwhiteval rwhiteval (followEdge lwhiteval rwhiteval seed pre) c with
      ⟨_, he⟩ | ⟨hc, _⟩
    · exact absurd he hne
    · exact hc

/-- Witness of C8: an edge at time 1000 (deadline 2000), then an edge at time 1500
(deadline 2500). -/
theorem followEdge_prior_extended_witness :
    (followEdge 500 500 5 [Tick.atTime 1000 2400 800 0]).prior
      ≤ (followEdgeStep 500 500 (followEdge 500 500 5 [Tick.atTime 1000 2400 800 0])
          (Tick.atTime 1500 800 2400 0)).state.prior ∧
    (followEdgeStep 500 500 (followEdge 500 500 5 [Tick.atTime 1000 2400 800 0])
          (Tick.atTime 1500 800 2400 0)).state.prior = 2500 :=
  ⟨(followEdge_prior_extended 500 500 5 [Tick.atTime 1000 2400 800 0]
      (Tick.atTime 1500 800 2400 0) (by decide) (by decide)).2.1, by decide⟩

/-! ## C9: the remembered direction -/

/-- The value `moveEndTime` receives, by leaf. -/
theorem step_moveEndTime (lw rw : Nat) (s : Engine) (c : Tick) :
    ((followEdgeStep lw rw s c).path = Path.hold ∧
      (followEdgeStep lw rw s c).state.moveEndTime = s.moveEndTime) ∨
    ((followEdgeStep lw rw s c).path = Path.memBoth ∧ s.priorDir ≠ 0 ∧ s.priorDir ≠ 1 ∧
      (followEdgeStep lw rw s c).state.moveEndTime = u32 (c.tMove + bigturn)) ∨
    ((followEdgeStep lw rw s c).path ≠ Path.hold ∧
      (followEdgeStep lw rw s c).path ≠ Path.memBoth ∧
      ((followEdgeStep lw rw s c).state.moveEndTime = u32 (c.tMove + smallturn) ∨
        (followEdgeStep lw rw s c).state.moveEndTime = u32 (c.tMove + steplength))) := by
  cases hc : classify c.lsenseval c.rsenseval lw rw
  · rw [step_of_edge hc]; simp [edgeBranch]
  · rw [step_of_bothWhite hc]
    unfold bothWhiteBranch
    repeat' split
    all_goals simp_all
  · rw [step_of_bothBlack hc]
    unfold bothBlackBranch
    repeat' split
    all_goals simp_all

theorem step_priorDir (lw rw : Nat) (s : Engine) (c : Tick) :
    (classify c.lsenseval c.rsenseval lw rw ≠ Sense.edge ∧
      (followEdgeStep lw rw s c).state.priorDir = s.priorDir) ∨
    (classify c.lsenseval c.rsenseval lw rw = Sense.edge ∧
      ((followEdgeStep lw rw s c).state.priorDir = 0 ∨
        (followEdgeStep lw rw s c).state.priorDir = 1)) := by
  by_cases hc : classify c.lsenseval c.rsenseval lw rw = Sense.edge
  · right
    rw [step_of_edge hc]
    refine ⟨hc, ?_⟩
    simp only [edgeBranch]
    split
    · exact Or.inr rfl
    · exact Or.inl rfl
  · left
    exact ⟨hc, (step_frame_of_not_edge hc s).2⟩

theorem runFrom_priorDir (lw rw : Nat) (ticks : List Tick) :
    ∀ s : Engine, (s.priorDir = 0 ∨ s.priorDir = 1) →
      ((runFrom lw rw s ticks).priorDir = 0 ∨ (runFrom lw rw s ticks).priorDir = 1) := by
  induction ticks with
  | nil => intro s hs; exact hs
  | cons c cs ih =>
    intro s hs
    rw [runFrom_cons]
    apply ih
    rcases step_priorDir lw rw s c with ⟨_, he⟩ | ⟨_, he⟩
    · rw [he]; exact hs
    · exact he

/-- C9. In every state of every execution from the initial state, hence in
every state after a tick classified as edge, `priorDir` is 0 (left) or 1
(right); a tick changes it only if it is classified as edge; no tick ends in the
`bigturn` leaf, and whenever a tick assigns `moveEndTime` (every leaf but hold)
the value is `millis() + smallturn` or `millis() + steplength`, never
`millis() + bigturn`. -/
theorem followEdge_priorDir_set (lwhiteval rwhiteval seed : Nat) (pre : List Tick) (c : Tick)
    (o : Outcome)
    (ho : o = followEdgeStep lwhiteval rwhiteval (followEdge lwhiteval rwhiteval seed pre) c) :
    ((followEdge lwhiteval rwhiteval seed pre).priorDir = 0 ∨
      (followEdge lwhiteval rwhiteval seed pre).priorDir = 1) ∧
    (o.state.priorDir = 0 ∨ o.state.priorDir = 1) ∧
    (o.state.priorDir ≠ (followEdge lwhiteval rwhiteval seed pre).priorDir →
      classify c.lsenseval c.rsenseval lwhiteval rwhiteval = Sense.edge) ∧
    o.path ≠ Path.memBoth ∧
    (o.path = Path.hold →
      o.state.moveEndTime = (followEdge lwhiteval rwhiteval seed pre).moveEndTime) ∧
    (o.path ≠ Path.hold →
      (o.state.moveEndTime = u32 (c.tMove + smallturn) ∨
        o.state.moveEndTime = u32 (c.tMove + steplength)) ∧
      o.state.moveEndTime ≠ u32 (c.tMove + bigturn)) := by
  subst ho
  have hs : (followEdge lwhiteval rwhiteval seed pre).priorDir = 0 ∨
      (followEdge lwhiteval rwhiteval seed pre).priorDir = 1 :=
    runFrom_priorDir lwhiteval rwhiteval pre (initEngine seed) (Or.inl rfl)
  have hd := step_priorDir lwhiteval rwhiteval (followEdge lwhiteval rwhiteval seed pre) c
  have hm := step_moveEndTime lwhiteval rwhiteval (followEdge lwhiteval rwhiteval seed pre) c
  have hnb : (followEdgeStep lwhiteval rwhiteval (followEdge lwhiteval rwhiteval seed pre) c).path
      ≠ Path.memBoth := by
    rcases hm with ⟨hp, _⟩ | ⟨_, h0, h1, _⟩ | ⟨_, hp, _⟩
    · rw [hp]; decide
    · rcases hs with h | h
      · exact absurd h h0
      · exact absurd h h1
    · exact hp
  refine ⟨hs, ?_, ?_, hnb, ?_, ?_⟩
  · rcases hd with ⟨_, he⟩ | ⟨_, he⟩
    · rw [he]; exact hs
    · exact he
  · intro hne
    rcases hd with ⟨_, he⟩ | ⟨hc, _⟩
    · exact absurd he hne
    · exact hc
  · intro hh
    rcases hm with ⟨_, he⟩ | ⟨hp, _⟩ | ⟨hp, _⟩
    · exact he
    · rw [hh] at hp; cases hp
    · exact absurd hh hp
  · intro hh
    rcases hm with ⟨hp, _⟩ | ⟨hp, _⟩ | ⟨_, _, he⟩
    · exact absurd hp hh
    · exact absurd hp hnb
    · refine ⟨he, ?_⟩
      rcases he with he | he
      · rw [he]; exact u32_small_ne_big _
      · rw [he]; exact u32_step_ne_big _

/-- Witness of C9: after an edge at time 1000, a both-white memory tick at time
1500 assigns `moveEndTime = 1700`. -/
theorem followEdge_priorDir_set_witness :
    (followEdge 500 500 5 [Tick.atTime 1000 2400 800 0]).priorDir = 1 ∧
    (followEdgeStep 500 500 (followEdge 500 500 5 [Tick.atTime 1000 2400 800 0])
      (Tick.atTime 1500 2400 2400 0)).path ≠ Path.memBoth ∧
    (followEdgeStep 500 500 (followEdge 500 500 5 [Tick.atTime 1000 2400 800 0])
      (Tick.atTime 1500 2400 2400 0)).state.moveEndTime ≠ u32 (1500 + bigturn) :=
  have h := followEdge_priorDir_set 500 500 5 [Tick.atTime 1000 2400 800 0]
    (Tick.atTime 1500 2400 2400 0) _ rfl
  ⟨by decide, h.2.2.2.1, (h.2.2.2.2.2 (by decide)).2⟩

/-! ## C10: sample and baseline on one scale -/

theorem sumReads_eq (read : Nat → Nat) (h : read 0 + read 1 + read 2 + read 3 < 65536) :
    sumReads read = read 0 + read 1 + read 2 + read 3 := by
  have h0 : u16 (0 + read 0) = read 0 := by rw [Nat.zero_add]; exact u16_of_lt (by omega)
  have h1 : u16 (read 0 + read 1) = read 0 + read 1 := u16_of_lt (by omega)
  have h2 : u16 (read 0 + read 1 + read 2) = read 0 + read 1 + read 2 := u16_of_lt (by omega)
  have h3 : u16 (read 0 + read 1 + read 2 + read 3) = read 0 + read 1 + read 2 + read 3 :=
    u16_of_lt h
  simp only [sumReads, List.range, List.range.loop, List.foldl_cons, List.foldl_nil,
    h0, h1, h2, h3]

/-- C10. For every four raw reads of a side, every baseline `w` and every
sensitivity numerator `n` (in particular `0 < n ≤ 4`) such that the sum of the
reads and `w*n` fit in 16 bits, the white test of the code on the summed reads
holds iff the mean of the four reads is strictly greater than `w*(n/4)` as
rational numbers; the sum the loop of lines 111-114 leaves is the exact sum. -/
theorem white_test_same_scale (read : Nat → Nat) (w n : Nat)
    (hsum : read 0 + read 1 + read 2 + read 3 < 65536) (hw : w * n < 65536) :
    sumReads read = read 0 + read 1 + read 2 + read 3 ∧
    (isWhite (sumReads read) w n = true ↔
      (w : ℚ) * ((n : ℚ) / 4) < ((read 0 : ℚ) + read 1 + read 2 + read 3) / 4) := by
  refine ⟨sumReads_eq read hsum, ?_⟩
  rw [isWhite_iff, sumReads_eq read hsum, u16_of_lt hw]
  have h4 : (0 : ℚ) < 4 := by norm_num
  rw [← mul_div_assoc, div_lt_div_iff_of_pos_right h4]
  constructor
  · intro h
    exact_mod_cast h
  · intro h
    exact_mod_cast h

/-- Witness of C10: four reads of 1023 against the baseline 1023 with numerator 4
(not white: the mean equals the threshold), and with numerator 3 (white). -/
theorem white_test_same_scale_witness :
    isWhite (sumReads (fun _ => 1023)) 1023 4 = false ∧
    (isWhite (sumReads (fun _ => 1023)) 1023 3 = true ↔
      ((1023 : Nat) : ℚ) * (((3 : Nat) : ℚ) / 4)
        < (((1023 : Nat) : ℚ) + (1023 : Nat) + (1023 : Nat) + (1023 : Nat)) / 4) :=
  ⟨by decide, (white_test_same_scale (fun _ => 1023) 1023 3 (by decide) (by decide)).2⟩

/-! ## Calibration -/

theorem sum16_eq (read : Nat → Nat) :
    sum16 read = read 0 + read 1 + read 2 + read 3 + read 4 + read 5 + read 6 + read 7 +
      read 8 + read 9 + read 10 + read 11 + read 12 + read 13 + read 14 + read 15 := by
  have h : sum16 read = read 0 + (read 1 + (read 2 + (read 3 + (read 4 + (read 5 + (read 6 +
      (read 7 + (read 8 + (read 9 + (read 10 + (read 11 + (read 12 + (read 13 + (read 14 +
      (read 15 + 0))))))))))))))) := rfl
  rw [h]; omega

theorem senseInit_fold_mod (lread rread : Nat → Nat) (l : List Nat) :
    ∀ a b : Nat,
      (l.foldl (fun (p : Nat × Nat) i => (u16 (p.1 + lread i), u16 (p.2 + rread i))) (a, b)).1
          % 65536 = (a + (l.map lread).sum) % 65536 ∧
      (l.foldl (fun (p : Nat × Nat) i => (u16 (p.1 + lread i), u16 (p.2 + rread i))) (a, b)).2
          % 65536 = (b + (l.map rread).sum) % 65536 := by
  induction l with
  | nil => intro a b; simp
  | cons x xs ih =>
    intro a b
    have h := ih (u16 (a + lread x)) (u16 (b + rread x))
    simp only [List.foldl_cons, List.map_cons, List.sum_cons]
    rw [h.1, h.2]
    unfold u16
    constructor <;> omega

/-- The baseline `senseInit` leaves on each side is its 16-bit sum shifted right
by four, whatever the other side reads. -/
theorem senseInit_eq (lread rread : Nat → Nat) :
    senseInit lread rread = (sum16 lread % 65536 / 16, sum16 rread % 65536 / 16) := by
  have hm := senseInit_fold_mod lread rread (List.range 16) 0 0
  have h1 : ((List.range 16).foldl
      (fun (p : Nat × Nat) i => (u16 (p.1 + lread i), u16 (p.2 + rread i))) (0, 0)).1 < 65536 := by
    rw [List.range_succ, List.foldl_append]
    exact u16_lt _
  have h2 : ((List.range 16).foldl
      (fun (p : Nat × Nat) i => (u16 (p.1 + lread i), u16 (p.2 + rread i))) (0, 0)).2 < 65536 := by
    rw [List.range_succ, List.foldl_append]
    exact u16_lt _
  have e1 := hm.1
  have e2 := hm.2
  rw [Nat.mod_eq_of_lt h1, Nat.zero_add] at e1
  rw [Nat.mod_eq_of_lt h2, Nat.zero_add] at e2
  simp only [senseInit, Nat.shiftRight_eq_div_pow, sum16]
  rw [e1, e2]

theorem isWhite_zero_baseline (x n : Nat) : isWhite x 0 n = true ↔ 0 < x := by
  rw [isWhite_iff]
  simp [u16]

/-! ## C11: a degenerate calibration -/

/-- C11, refuted as stated. With every left calibration read 0 (sum 0, less
than 16) and every right read 500, `setup` ends with the baseline (0, 500),
nothing is reported, and `followEdge` runs with it: the first tick, with summed
readings (1, 2400), is classified both white and issues `move(lspd, rspd)`. -/
theorem setup_zero_baseline_counterexample :
    sum16 (fun _ => 0) < 16 ∧
    setup (fun _ => 0) (fun _ => 500) = (0, 500) ∧
    sketch (fun _ => 0) (fun _ => 500) 5 [Tick.atTime 0 1 2400 0]
      = followEdge 0 500 5 [Tick.atTime 0 1 2400 0] ∧
    classify 1 2400 0 500 = Sense.bothWhite ∧
    (followEdgeStep (setup (fun _ => 0) (fun _ => 500)).1 (setup (fun _ => 0) (fun _ => 500)).2
      (initEngine 5) (Tick.atTime 0 1 2400 0)).cmd = some (lspd, rspd) ∧
    (sketch (fun _ => 0) (fun _ => 500) 5 [Tick.atTime 0 1 2400 0]).lastMove = 0 := by
  decide

/-- C11, amended. Startup does not examine the calibration: for all 16 reads per
side `setup` ends with the baseline `senseInit` computes, and `followEdge` is
entered with exactly that baseline, also when it is zero on a side. A side's
baseline is zero iff its 16-bit sum is less than 16 (iff the reads sum to less
than 16, when the sum fits in 16 bits), and with a zero baseline that side is
white exactly when its summed reading is nonzero. -/
theorem sketch_enters_with_any_baseline (lread rread : Nat → Nat) (seed : Nat)
    (ticks : List Tick) :
    setup lread rread = senseInit lread rread ∧
    sketch lread rread seed ticks
      = followEdge (senseInit lread rread).1 (senseInit lread rread).2 seed ticks ∧
    ((senseInit lread rread).1 = 0 ↔ sum16 lread % 65536 < 16) ∧
    ((senseInit lread rread).2 = 0 ↔ sum16 rread % 65536 < 16) ∧
    (sum16 lread < 65536 → ((senseInit lread rread).1 = 0 ↔ sum16 lread < 16)) ∧
    (sum16 rread < 65536 → ((senseInit lread rread).2 = 0 ↔ sum16 rread < 16)) ∧
    (∀ x, isWhite x 0 leftSensitivity = true ↔ 0 < x) ∧
    (∀ x, isWhite x 0 rightSensitivity = true ↔ 0 < x) := by
  have he := senseInit_eq lread rread
  have h1 : (senseInit lread rread).1 = sum16 lread % 65536 / 16 := by rw [he]
  have h2 : (senseInit lread rread).2 = sum16 rread % 65536 / 16 := by rw [he]
  refine ⟨rfl, rfl, ?_, ?_, ?_, ?_, fun x => isWhite_zero_baseline x _,
    fun x => isWhite_zero_baseline x _⟩
  · rw [h1]; omega
  · rw [h2]; omega
  · intro h; rw [h1]; omega
  · intro h; rw [h2]; omega

/-- Witness of the amended C11: left reads all 0, right reads all 500. -/
theorem sketch_enters_with_any_baseline_witness :
    sketch (fun _ => 0) (fun _ => 500) 5 [Tick.atTime 0 1 2400 0]
      = followEdge (senseInit (fun _ => 0) (fun _ => 500)).1
          (senseInit (fun _ => 0) (fun _ => 500)).2 5 [Tick.atTime 0 1 2400 0] ∧
    (senseInit (fun _ => 0) (fun _ => 500)).1 = 0 :=
  have h := sketch_enters_with_any_baseline (fun _ => 0) (fun _ => 500) 5
    [Tick.atTime 0 1 2400 0]
  ⟨h.2.1, (h.2.2.2.2.1 (by decide)).2 (by decide)⟩

/-! ## C12: one step of the random walk -/

theorem bothWhiteBranch_walk (s : Engine) (c : Tick)
    (hm : ¬ (s.lastSense = 2 ∨ c.tMem < s.prior)) :
    (c.tHold < s.moveEndTime →
      bothWhiteBranch s c = ⟨{ s with lastSense := 1 }, none, Path.hold⟩) ∧
    (¬ c.tHold < s.moveEndTime → s.lastMove ≠ 0 →
      bothWhiteBranch s c =
        ⟨{ s with moveEndTime := u32 (c.tMove + steplength), lastMove := 0, lastSense := 1 },
          some (lspd, rspd), Path.walkStraight⟩) ∧
    (¬ c.tHold < s.moveEndTime → s.lastMove = 0 → s.randomBits &&& 1 ≠ 0 →
      bothWhiteBranch s c =
        ⟨{ s with moveEndTime := u32 (c.tMove + smallturn), lastMove := 1,
                  randomBits := s.randomBits >>> 1, lastSense := 1 },
          some (0, rspd), Path.walkTurn⟩) ∧
    (¬ c.tHold < s.moveEndTime → s.lastMove = 0 → s.randomBits &&& 1 = 0 →
      bothWhiteBranch s c =
        ⟨{ s with moveEndTime := u32 (c.tMove + smallturn), lastMove := 2,
                  randomBits := s.randomBits >>> 1, lastSense := 1 },
          some (lspd, 0), Path.walkTurn⟩) := by
  refine ⟨?_, ?_, ?_, ?_⟩
  · intro hh
    rw [bothWhiteBranch, if_neg hm, if_pos hh]
  · intro hh hl
    rw [bothWhiteBranch, if_neg hm, if_neg hh, if_pos hl]
  · intro hh hl hb
    rw [bothWhiteBranch, if_neg hm, if_neg hh, if_neg (not_not.mpr hl), if_pos hb]
  · intro hh hl hb
    rw [bothWhiteBranch, if_neg hm, if_neg hh, if_neg (not_not.mpr hl), if_neg (not_not.mpr hb)]

theorem bothBlackBranch_walk (s : Engine) (c : Tick)
    (hm : ¬ (s.lastSense = 1 ∨ c.tMem < s.prior)) :
    (c.tHold < s.moveEndTime →
      bothBlackBranch s c = ⟨{ s with lastSense := 2 }, none, Path.hold⟩) ∧
    (¬ c.tHold < s.moveEndTime → s.lastMove ≠ 0 →
      bothBlackBranch s c =
        ⟨{ s with moveEndTime := u32 (c.tMove + steplength), lastMove := 0, lastSense := 2 },
          some (lspd, rspd), Path.walkStraight⟩) ∧
    (¬ c.tHold < s.moveEndTime → s.lastMove = 0 → s.randomBits &&& 1 ≠ 0 →
      bothBlackBranch s c =
        ⟨{ s with moveEndTime := u32 (c.tMove + smallturn), lastMove := 1,
                  randomBits := s.randomBits >>> 1, lastSense := 2 },
          some (0, rspd), Path.walkTurn⟩) ∧
    (¬ c.tHold < s.moveEndTime → s.lastMove = 0 → s.randomBits &&& 1 = 0 →
      bothBlackBranch s c =
        ⟨{ s with moveEndTime := u32 (c.tMove + smallturn), lastMove := 2,
                  randomBits := s.randomBits >>> 1, lastSense := 2 },
          some (lspd, 0), Path.walkTurn⟩) := by
  refine ⟨?_, ?_, ?_, ?_⟩
  · intro hh
    rw [bothBlackBranch, if_neg hm, if_pos hh]
  · intro hh hl
    rw [bothBlackBranch, if_neg hm, if_neg hh, if_pos hl]
  · intro hh hl hb
    rw [bothBlackBranch, if_neg hm, if_neg hh, if_neg (not_not.mpr hl), if_pos hb]
  · intro hh hl hb
    rw [bothBlackBranch, if_neg hm, if_neg hh, if_neg (not_not.mpr hl), if_neg (not_not.mpr hb)]

theorem and_one_cases (n : Nat) :
    (n &&& 1 ≠ 0 ↔ n % 2 = 1) ∧ (n &&& 1 = 0 ↔ n % 2 = 0) := by
  rw [Nat.and_one_is_mod]
  constructor <;> omega

/-- C12. For every state and every both-white or both-black tick at time `now`
that does not satisfy the memory condition, the tick is classified by
`now < moveEndTime` and `lastMove`, and exactly one of three things happens.
(1) If `now < moveEndTime`: no call of `move`, and `lastMove`, `moveEndTime` and
`randomBits` (after the refill check) are unchanged. (2) Else if
`lastMove != 0`: `move(lspd, rspd)`, `moveEndTime = now + steplength`,
`lastMove = 0`, `randomBits` as the refill check left it. (3) Else the lowest
bit of `randomBits` (after the refill check) picks the turn, 1 giving left
`(0, rspd)` with `lastMove = 1` and 0 giving right `(lspd, 0)` with
`lastMove = 2`, `moveEndTime = now + smallturn`, and `randomBits` becomes the
refilled value divided by two (shifted right by one). In all three `lastSense`
becomes the code of the classification, and `prior`, `priorDir` stay. -/
theorem followEdge_random_walk (lwhiteval rwhiteval : Nat) (s : Engine) (now l r mic : Nat)
    (o : Outcome) (ho : o = followEdgeStep lwhiteval rwhiteval s (Tick.atTime now l r mic))
    (hwalk : (classify l r lwhiteval rwhiteval = Sense.bothWhite ∧
               ¬ (s.lastSense = 2 ∨ now < s.prior)) ∨
             (classify l r lwhiteval rwhiteval = Sense.bothBlack ∧
               ¬ (s.lastSense = 1 ∨ now < s.prior))) :
    (now < s.moveEndTime →
      o.path = Path.hold ∧ o.cmd = none ∧ o.state.lastMove = s.lastMove ∧
      o.state.moveEndTime = s.moveEndTime ∧
      o.state.randomBits = refill s.randomBits mic) ∧
    (¬ now < s.moveEndTime → s.lastMove ≠ 0 →
      o.path = Path.walkStraight ∧ o.cmd = some (lspd, rspd) ∧ o.state.lastMove = 0 ∧
      o.state.moveEndTime = u32 (now + steplength) ∧
      o.state.randomBits = refill s.randomBits mic) ∧
    (¬ now < s.moveEndTime → s.lastMove = 0 →
      o.path = Path.walkTurn ∧
      (refill s.randomBits mic % 2 = 1 → o.cmd = some (0, rspd) ∧ o.state.lastMove = 1) ∧
      (refill s.randomBits mic % 2 = 0 → o.cmd = some (lspd, 0) ∧ o.state.lastMove = 2) ∧
      o.state.moveEndTime = u32 (now + smallturn) ∧
      o.state.randomBits = refill s.randomBits mic / 2) ∧
    o.state.lastSense = (classify l r lwhiteval rwhiteval).code ∧
    o.state.prior = s.prior ∧ o.state.priorDir = s.priorDir := by
  have hshift : refill s.randomBits mic >>> 1 = refill s.randomBits mic / 2 := by
    rw [Nat.shiftRight_eq_div_pow]
  have hbit := and_one_cases (refill s.randomBits mic)
  rcases hwalk with ⟨hc, hm⟩ | ⟨hc, hm⟩
  · have hc2 : classify (Tick.atTime now l r mic).lsenseval (Tick.atTime now l r mic).rsenseval
        lwhiteval rwhiteval = Sense.bothWhite := hc
    rw [step_of_bothWhite hc2] at ho
    obtain ⟨w1, w2, w3, w4⟩ := bothWhiteBranch_walk
      { s with randomBits := refill s.randomBits (Tick.atTime now l r mic).micros }
      (Tick.atTime now l r mic) hm
    subst ho
    refine ⟨?_, ?_, ?_, ?_, ?_, ?_⟩
    · intro hh
      rw [w1 hh]; exact ⟨rfl, rfl, rfl, rfl, rfl⟩
    · intro hh hl
      rw [w2 hh hl]; exact ⟨rfl, rfl, rfl, rfl, rfl⟩
    · intro hh hl
      by_cases hb : refill s.randomBits mic &&& 1 = 0
      · rw [w4 hh hl hb]
        refine ⟨rfl, ?_, fun _ => ⟨rfl, rfl⟩, rfl, hshift⟩
        intro h1
        have := hbit.2.1 hb
        omega
      · rw [w3 hh hl hb]
        refine ⟨rfl, fun _ => ⟨rfl, rfl⟩, ?_, rfl, hshift⟩
        intro h0
        have := hbit.1.1 hb
        omega
    · rw [hc]; exact bothWhiteBranch_lastSense _ _
    · exact (bothWhiteBranch_frame _ _).1
    · exact (bothWhiteBranch_frame _ _).2
  · have hc2 : classify (Tick.atTime now l r mic).lsenseval (Tick.atTime now l r mic).rsenseval
        lwhiteval rwhiteval = Sense.bothBlack := hc
    rw [step_of_bothBlack hc2] at ho
    obtain ⟨w1, w2, w3, w4⟩ := bothBlackBranch_walk
      { s with randomBits := refill s.randomBits (Tick.atTime now l r mic).micros }
      (Tick.atTime now l r mic) hm
    subst ho
    refine ⟨?_, ?_, ?_, ?_, ?_, ?_⟩
    · intro hh
      rw [w1 hh]; exact ⟨rfl, rfl, rfl, rfl, rfl⟩
    · intro hh hl
      rw [w2 hh hl]; exact ⟨rfl, rfl, rfl, rfl, rfl⟩
    · intro hh hl
      by_cases hb : refill s.randomBits mic &&& 1 = 0
      · rw [w4 hh hl hb]
        refine ⟨rfl, ?_, fun _ => ⟨rfl, rfl⟩, rfl, hshift⟩
        intro h1
        have := hbit.2.1 hb
        omega
      · rw [w3 hh hl hb]
        refine ⟨rfl, fun _ => ⟨rfl, rfl⟩, ?_, rfl, hshift⟩
        intro h0
        have := hbit.1.1 hb
        omega
    · rw [hc]; exact bothBlackBranch_lastSense _ _
    · exact (bothBlackBranch_frame _ _).1
    · exact (bothBlackBranch_frame _ _).2

/-- Witness of C12: from the initial state with seed 6, both white at time 0 goes
straight; the next both-white tick at time 300 reads the even pool 6, turns
right and leaves the pool at 3. -/
theorem followEdge_random_walk_witness :
    (followEdgeStep 500 500 (followEdge 500 500 6 [Tick.atTime 0 2400 2400 0])
      (Tick.atTime 300 2400 2400 0)).cmd = some (lspd, 0) ∧
    (followEdgeStep 500 500 (followEdge 500 500 6 [Tick.atTime 0 2400 2400 0])
      (Tick.atTime 300 2400 2400 0)).state.randomBits = 3 :=
  have h := (followEdge_random_walk 500 500 (followEdge 500 500 6 [Tick.atTime 0 2400 2400 0])
    300 2400 2400 0 _ rfl (Or.inl ⟨by decide, by decide⟩)).2.2.1 (by decide) (by decide)
  ⟨(h.2.2.1 (by decide)).1, h.2.2.2.2.trans (by decide)⟩

/-! ## C13: both black mirrors both white -/

theorem bothBlack_mirror (s : Engine) (c : Tick) (hdir : s.priorDir = 0 ∨ s.priorDir = 1) :
    (bothBlackBranch s c).cmd = (bothWhiteBranch (conj s) c).cmd ∧
    (bothBlackBranch s c).state = conj (bothWhiteBranch (conj s) c).state ∧
    ((bothBlackBranch s c).path = Path.memDir0 ↔
      (bothWhiteBranch (conj s) c).path = Path.memDir1) ∧
    ((bothBlackBranch s c).path = Path.memDir1 ↔
      (bothWhiteBranch (conj s) c).path = Path.memDir0) ∧
    ((bothBlackBranch s c).path = Path.hold ↔
      (bothWhiteBranch (conj s) c).path = Path.hold) ∧
    ((bothBlackBranch s c).path = Path.walkStraight ↔
      (bothWhiteBranch (conj s) c).path = Path.walkStraight) ∧
    ((bothBlackBranch s c).path = Path.walkTurn ↔
      (bothWhiteBranch (conj s) c).path = Path.walkTurn) := by
  obtain ⟨lm, met, rb, p, pd, ls⟩ := s
  simp only at hdir
  have hls : (if ls = 1 then 2 else if ls = 2 then 1 else ls) = 2 ↔ ls = 1 := by
    by_cases h1 : ls = 1
    · simp [h1]
    · by_cases h2 : ls = 2
      · simp [h2]
      · simp [h1, h2]
  by_cases hm : ls = 1 ∨ c.tMem < p
  · have hm2 : (if ls = 1 then 2 else if ls = 2 then 1 else ls) = 2 ∨ c.tMem < p := by
      rw [hls]; exact hm
    rw [bothBlackBranch, bothWhiteBranch]
    simp only [conj]
    rw [if_pos hm, if_pos hm2]
    rcases hdir with rfl | rfl <;> simp
  · have hm2 : ¬ ((if ls = 1 then 2 else if ls = 2 then 1 else ls) = 2 ∨ c.tMem < p) := by
      rw [hls]; exact hm
    rw [bothBlackBranch, bothWhiteBranch]
    simp only [conj]
    rw [if_neg hm, if_neg hm2]
    by_cases hh : c.tHold < met
    · rw [if_pos hh, if_pos hh]
      rcases hdir with rfl | rfl <;> simp
    · rw [if_neg hh, if_neg hh]
      by_cases hl : lm = 0
      · rw [if_neg (not_not.mpr hl), if_neg (not_not.mpr hl)]
        by_cases hb : rb &&& 1 = 0
        · rw [if_neg (not_not.mpr hb), if_neg (not_not.mpr hb)]
          rcases hdir with rfl | rfl <;> simp
        · rw [if_pos hb, if_pos hb]
          rcases hdir with rfl | rfl <;> simp
      · rw [if_pos hl, if_pos hl]
        rcases hdir with rfl | rfl <;> simp

theorem conj_randomBits (s : Engine) (rb : Nat) :
    conj { s with randomBits := rb } = { conj s with randomBits := rb } := rfl

/-- C13. Let `conj` swap `lastSense` 1 with 2 and `priorDir` 0 with 1 and leave
the rest. For every state `s` with `priorDir` 0 or 1, every time `now` and every
value of `micros()`, the tick on a both-black sample from `s` issues the same
command as the tick on a both-white sample from `conj s`, and its resulting
state is `conj` of that tick's resulting state. The two ticks take the memory
branch together (with the two `priorDir` leaves exchanged) and otherwise end in
the same leaf of the random walk: hold, straight or turn. -/
theorem followEdge_black_mirrors_white (lwhiteval rwhiteval : Nat) (s : Engine)
    (now mic lB rB lW rW : Nat)
    (hdir : s.priorDir = 0 ∨ s.priorDir = 1)
    (hB : classify lB rB lwhiteval rwhiteval = Sense.bothBlack)
    (hW : classify lW rW lwhiteval rwhiteval = Sense.bothWhite) :
    (followEdgeStep lwhiteval rwhiteval s (Tick.atTime now lB rB mic)).cmd
      = (followEdgeStep lwhiteval rwhiteval (conj s) (Tick.atTime now lW rW mic)).cmd ∧
    (followEdgeStep lwhiteval rwhiteval s (Tick.atTime now lB rB mic)).state
      = conj (followEdgeStep lwhiteval rwhiteval (conj s) (Tick.atTime now lW rW mic)).state ∧
    ((followEdgeStep lwhiteval rwhiteval s (Tick.atTime now lB rB mic)).path = Path.memDir0 ↔
      (followEdgeStep lwhiteval rwhiteval (conj s) (Tick.atTime now lW rW mic)).path
        = Path.memDir1) ∧
    ((followEdgeStep lwhiteval rwhiteval s (Tick.atTime now lB rB mic)).path = Path.memDir1 ↔
      (followEdgeStep lwhiteval rwhiteval (conj s) (Tick.atTime now lW rW mic)).path
        = Path.memDir0) ∧
    ((followEdgeStep lwhiteval rwhiteval s (Tick.atTime now lB rB mic)).path = Path.hold ↔
      (followEdgeStep lwhiteval rwhiteval (conj s) (Tick.atTime now lW rW mic)).path
        = Path.hold) ∧
    ((followEdgeStep lwhiteval rwhiteval s (Tick.atTime now lB rB mic)).path
        = Path.walkStraight ↔
      (followEdgeStep lwhiteval rwhiteval (conj s) (Tick.atTime now lW rW mic)).path
        = Path.walkStraight) ∧
    ((followEdgeStep lwhiteval rwhiteval s (Tick.atTime now lB rB mic)).path = Path.walkTurn ↔
      (followEdgeStep lwhiteval rwhiteval (conj s) (Tick.atTime now lW rW mic)).path
        = Path.walkTurn) := by
  have hB2 : classify (Tick.atTime now lB rB mic).lsenseval (Tick.atTime now lB rB mic).rsenseval
      lwhiteval rwhiteval = Sense.bothBlack := hB
  have hW2 : classify (Tick.atTime now lW rW mic).lsenseval (Tick.atTime now lW rW mic).rsenseval
      lwhiteval rwhiteval = Sense.bothWhite := hW
  rw [step_of_bothBlack hB2, step_of_bothWhite hW2]
  exact bothBlack_mirror { s with randomBits := refill s.randomBits mic }
    (Tick.atTime now 0 0 mic) hdir

/-- Witness of C13: after an edge at time 1000 that stored `priorDir = 1`, a
both-black tick at time 1500 turns left, as does the both-white tick from the
mirrored state. -/
theorem followEdge_black_mirrors_white_witness :
    (followEdgeStep 500 500 (followEdge 500 500 5 [Tick.atTime 1000 2400 800 0])
      (Tick.atTime 1500 800 800 0)).cmd = some (0, rspd) ∧
    (followEdgeStep 500 500 (conj (followEdge 500 500 5 [Tick.atTime 1000 2400 800 0]))
      (Tick.atTime 1500 2400 2400 0)).cmd = some (0, rspd) :=
  have h := followEdge_black_mirrors_white 500 500
    (followEdge 500 500 5 [Tick.atTime 1000 2400 800 0]) 1500 0 800 800 2400 2400
    (Or.inr (by decide)) (by decide) (by decide)
  ⟨by decide, h.1.symm.trans (by decide)⟩

/-! ## C14: the calibration average -/

theorem sum16_bounds (read : Nat → Nat) (lo hi : Nat)
    (h : ∀ i, i < 16 → lo ≤ read i ∧ read i ≤ hi) :
    16 * lo ≤ sum16 read ∧ sum16 read ≤ 16 * hi := by
  rw [sum16_eq]
  have h0 := h 0 (by decide)
  have h1 := h 1 (by decide)
  have h2 := h 2 (by decide)
  have h3 := h 3 (by decide)
  have h4 := h 4 (by decide)
  have h5 := h 5 (by decide)
  have h6 := h 6 (by decide)
  have h7 := h 7 (by decide)
  have h8 := h 8 (by decide)
  have h9 := h 9 (by decide)
  have h10 := h 10 (by decide)
  have h11 := h 11 (by decide)
  have h12 := h 12 (by decide)
  have h13 := h 13 (by decide)
  have h14 := h 14 (by decide)
  have h15 := h 15 (by decide)
  omega

/-- C14. For all 16 raw reads per side whose sums fit in 16 bits (as they do
when every read is at most 1023), `senseInit` leaves `lwhiteval` equal to the
sum of the 16 left reads divided by 16, rounded down, and `rwhiteval` likewise
for the right reads. Each value lies between any lower and any upper bound of
its 16 reads, hence between their minimum and maximum. Each side depends on its
own reads only. -/
theorem senseInit_average (lread rread : Nat → Nat)
    (hl : sum16 lread < 65536) (hr : sum16 rread < 65536) :
    (senseInit lread rread).1 = sum16 lread / 16 ∧
    (senseInit lread rread).2 = sum16 rread / 16 ∧
    sum16 lread = lread 0 + lread 1 + lread 2 + lread 3 + lread 4 + lread 5 + lread 6 + lread 7 +
      lread 8 + lread 9 + lread 10 + lread 11 + lread 12 + lread 13 + lread 14 + lread 15 ∧
    (∀ lo hi, (∀ i, i < 16 → lo ≤ lread i ∧ lread i ≤ hi) →
      lo ≤ (senseInit lread rread).1 ∧ (senseInit lread rread).1 ≤ hi) ∧
    (∀ lo hi, (∀ i, i < 16 → lo ≤ rread i ∧ rread i ≤ hi) →
      lo ≤ (senseInit lread rread).2 ∧ (senseInit lread rread).2 ≤ hi) ∧
    (∀ other, (senseInit lread other).1 = (senseInit lread rread).1) ∧
    (∀ other, (senseInit other rread).2 = (senseInit lread rread).2) ∧
    (∀ read : Nat → Nat, (∀ i, i < 16 → read i ≤ 1023) → sum16 read < 65536) := by
  have he := senseInit_eq lread rread
  have h1 : (senseInit lread rread).1 = sum16 lread / 16 := by
    rw [he, Nat.mod_eq_of_lt hl]
  have h2 : (senseInit lread rread).2 = sum16 rread / 16 := by
    rw [he, Nat.mod_eq_of_lt hr]
  refine ⟨h1, h2, sum16_eq lread, ?_, ?_, ?_, ?_, ?_⟩
  · intro lo hi hb
    have hs := sum16_bounds lread lo hi hb
    rw [h1]; omega
  · intro lo hi hb
    have hs := sum16_bounds rread lo hi hb
    rw [h2]; omega
  · intro other
    rw [senseInit_eq lread other, he]
  · intro other
    rw [senseInit_eq other rread, he]
  · intro read hb
    have hs := sum16_bounds read 0 1023 (fun i hi => ⟨Nat.zero_le _, hb i hi⟩)
    omega

/-- Witness of C14: the left reads are 500, 501, ..., 515 (sum 8120, average
507), the right reads are all 1023. -/
theorem senseInit_average_witness :
    (senseInit (fun i => 500 + i) (fun _ => 1023)).1 = 507 ∧
    (senseInit (fun i => 500 + i) (fun _ => 1023)).2 = 1023 :=
  have h := senseInit_average (fun i => 500 + i) (fun _ => 1023) (by decide) (by decide)
  ⟨h.1.trans (by decide), h.2.1.trans (by decide)⟩

/-! ## C15: lastMove tracks the actuator -/

/-- What an iteration does to `lastMove` and `moveEndTime`, with the durations. -/
theorem step_track (lw rw : Nat) (s : Engine) (c : Tick) :
    ((followEdgeStep lw rw s c).cmd = none ∧ c.tHold < s.moveEndTime ∧
      (followEdgeStep lw rw s c).state.lastMove = s.lastMove ∧
      (followEdgeStep lw rw s c).state.moveEndTime = s.moveEndTime) ∨
    ((followEdgeStep lw rw s c).cmd = some (lspd, rspd) ∧
      (followEdgeStep lw rw s c).state.lastMove = 0 ∧
      (followEdgeStep lw rw s c).state.moveEndTime = u32 (c.tMove + steplength)) ∨
    ((followEdgeStep lw rw s c).cmd = some (0, rspd) ∧
      (followEdgeStep lw rw s c).state.lastMove = 1 ∧
      ((followEdgeStep lw rw s c).state.moveEndTime = u32 (c.tMove + smallturn) ∨
        (followEdgeStep lw rw s c).state.moveEndTime = u32 (c.tMove + bigturn))) ∨
    ((followEdgeStep lw rw s c).cmd = some (lspd, 0) ∧
      (followEdgeStep lw rw s c).state.lastMove = 2 ∧
      ((followEdgeStep lw rw s c).state.moveEndTime = u32 (c.tMove + smallturn) ∨
        (followEdgeStep lw rw s c).state.moveEndTime = u32 (c.tMove + bigturn))) := by
  cases hc : classify c.lsenseval c.rsenseval lw rw
  · rw [step_of_edge hc]
    right; left
    exact ⟨rfl, rfl, rfl⟩
  · rw [step_of_bothWhite hc]
    unfold bothWhiteBranch
    split
    · split
      · right; right; left; exact ⟨rfl, rfl, Or.inl rfl⟩
      · split
        · right; right; right; exact ⟨rfl, rfl, Or.inl rfl⟩
        · right; right; left; exact ⟨rfl, rfl, Or.inr rfl⟩
    · split
      · left; exact ⟨rfl, by assumption, rfl, rfl⟩
      · split
        · right; left; exact ⟨rfl, rfl, rfl⟩
        · split
          · right; right; left; exact ⟨rfl, rfl, Or.inl rfl⟩
          · right; right; right; exact ⟨rfl, rfl, Or.inl rfl⟩
  · rw [step_of_bothBlack hc]
    unfold bothBlackBranch
    split
    · split
      · right; right; right; exact ⟨rfl, rfl, Or.inl rfl⟩
      · split
        · right; right; left; exact ⟨rfl, rfl, Or.inl rfl⟩
        · right; right; right; exact ⟨rfl, rfl, Or.inr rfl⟩
    · split
      · left; exact ⟨rfl, by assumption, rfl, rfl⟩
      · split
        · right; left; exact ⟨rfl, rfl, rfl⟩
        · split
          · right; right; left; exact ⟨rfl, rfl, Or.inl rfl⟩
          · right; right; right; exact ⟨rfl, rfl, Or.inl rfl⟩

theorem logStep_issued (lw rw : Nat) (p : Engine × Option (Nat × (Nat × Nat))) (c : Tick)
    (hp : Tracked p) : Issued (logStep lw rw p c) := by
  simp only [logStep]
  rcases step_track lw rw p.1 c with ⟨hcmd, hlt, hm, he⟩ | ⟨hcmd, hm, he⟩ | ⟨hcmd, hm, he⟩ |
    ⟨hcmd, hm, he⟩
  · rcases hp with ⟨_, _, h0⟩ | ⟨t0, h⟩
    · rw [h0] at hlt
      exact absurd hlt (Nat.not_lt_zero _)
    · refine ⟨t0, ?_⟩
      rw [hcmd, hm, he]
      exact h
  · exact ⟨c.tMove, Or.inl ⟨by rw [hcmd], hm, he⟩⟩
  · exact ⟨c.tMove, Or.inr (Or.inl ⟨by rw [hcmd], hm, he⟩)⟩
  · exact ⟨c.tMove, Or.inr (Or.inr ⟨by rw [hcmd], hm, he⟩)⟩

theorem foldl_tracked (lw rw : Nat) (ticks : List Tick) :
    ∀ p : Engine × Option (Nat × (Nat × Nat)), Tracked p →
      Tracked (ticks.foldl (logStep lw rw) p) := by
  induction ticks with
  | nil => intro p hp; exact hp
  | cons c cs ih =>
    intro p hp
    simp only [List.foldl_cons]
    exact ih _ (Or.inr (logStep_issued lw rw p c hp))

theorem followEdgeLog_concat (lw rw seed : Nat) (pre : List Tick) (c : Tick) :
    followEdgeLog lw rw seed (pre ++ [c]) = logStep lw rw (followEdgeLog lw rw seed pre) c := by
  simp [followEdgeLog, List.foldl_append]

/-- C15. For every execution from the initial state (`lastMove = 1`,
`moveEndTime = 0`, `lastSense = 1`, `prior = 0`, `priorDir = 0`): the first tick
always calls `move` (it is never a hold); after every tick `lastMove` is 0, 1 or
2 and there is a most recent call of `move`, at some time `t0`, which `lastMove`
names: 0 iff it was `(lspd, rspd)`, 1 iff it was `(0, rspd)`, 2 iff it was
`(lspd, 0)`; and `moveEndTime` is `t0` plus the duration of that command, in
32-bit arithmetic: `steplength` for straight, `smallturn` or `bigturn` for a
turn. -/
theorem followEdge_lastMove_tracks (lwhiteval rwhiteval seed : Nat) (pre : List Tick)
    (c : Tick) :
    (initEngine seed = ⟨1, 0, seed, 0, 0, 1⟩) ∧
    (followEdgeStep lwhiteval rwhiteval (initEngine seed) c).cmd ≠ none ∧
    (followEdgeStep lwhiteval rwhiteval (initEngine seed) c).path ≠ Path.hold ∧
    ((followEdge lwhiteval rwhiteval seed (pre ++ [c])).lastMove = 0 ∨
      (followEdge lwhiteval rwhiteval seed (pre ++ [c])).lastMove = 1 ∨
      (followEdge lwhiteval rwhiteval seed (pre ++ [c])).lastMove = 2) ∧
    ∃ t0 cmd,
      (followEdgeLog lwhiteval rwhiteval seed (pre ++ [c])).2 = some (t0, cmd) ∧
      (cmd = (lspd, rspd) ∨ cmd = (0, rspd) ∨ cmd = (lspd, 0)) ∧
      ((followEdge lwhiteval rwhiteval seed (pre ++ [c])).lastMove = 0 ↔ cmd = (lspd, rspd)) ∧
      ((followEdge lwhiteval rwhiteval seed (pre ++ [c])).lastMove = 1 ↔ cmd = (0, rspd)) ∧
      ((followEdge lwhiteval rwhiteval seed (pre ++ [c])).lastMove = 2 ↔ cmd = (lspd, 0)) ∧
      (cmd = (lspd, rspd) →
        (followEdge lwhiteval rwhiteval seed (pre ++ [c])).moveEndTime
          = u32 (t0 + steplength)) ∧
      (cmd ≠ (lspd, rspd) →
        (followEdge lwhiteval rwhiteval seed (pre ++ [c])).moveEndTime
            = u32 (t0 + smallturn) ∨
        (followEdge lwhiteval rwhiteval seed (pre ++ [c])).moveEndTime
            = u32 (t0 + bigturn)) ∧
      (t0 + bigturn < 4294967296 →
        u32 (t0 + steplength) = t0 + steplength ∧ u32 (t0 + smallturn) = t0 + smallturn ∧
        u32 (t0 + bigturn) = t0 + bigturn) := by
  have hz1 : ((0 : Nat), rspd) ≠ (lspd, rspd) := by decide
  have hex : ∀ t0 : Nat, t0 + bigturn < 4294967296 →
      u32 (t0 + steplength) = t0 + steplength ∧ u32 (t0 + smallturn) = t0 + smallturn ∧
      u32 (t0 + bigturn) = t0 + bigturn := by
    intro t0 h
    simp only [bigturn, steplength, smallturn] at h ⊢
    exact ⟨u32_of_lt (by omega), u32_of_lt (by omega), u32_of_lt h⟩
  have hz2 : (lspd, (0 : Nat)) ≠ (lspd, rspd) := by decide
  have hz3 : (lspd, (0 : Nat)) ≠ ((0 : Nat), rspd) := by decide
  have hfirst : (followEdgeStep lwhiteval rwhiteval (initEngine seed) c).cmd ≠ none ∧
      (followEdgeStep lwhiteval rwhiteval (initEngine seed) c).path ≠ Path.hold := by
    rcases step_shape lwhiteval rwhiteval (initEngine seed) c with ⟨hp, _⟩ | ⟨hp, hc, _⟩ |
      ⟨hp, hc, _⟩ | ⟨hp, hc, _⟩
    · exfalso
      rcases step_track lwhiteval rwhiteval (initEngine seed) c with ⟨_, hlt, _⟩ | ⟨hc, _⟩ |
        ⟨hc, _⟩ | ⟨hc, _⟩
      · exact absurd hlt (Nat.not_lt_zero _)
      · rcases step_shape lwhiteval rwhiteval (initEngine seed) c with ⟨_, hn, _⟩ | ⟨hq, _⟩ |
          ⟨hq, _⟩ | ⟨hq, _⟩
        · rw [hn] at hc; cases hc
        · exact hq hp
        · exact hq hp
        · exact hq hp
      · rcases step_shape lwhiteval rwhiteval (initEngine seed) c with ⟨_, hn, _⟩ | ⟨hq, _⟩ |
          ⟨hq, _⟩ | ⟨hq, _⟩
        · rw [hn] at hc; cases hc
        · exact hq hp
        · exact hq hp
        · exact hq hp
      · rcases step_shape lwhiteval rwhiteval (initEngine seed) c with ⟨_, hn, _⟩ | ⟨hq, _⟩ |
          ⟨hq, _⟩ | ⟨hq, _⟩
        · rw [hn] at hc; cases hc
        · exact hq hp
        · exact hq hp
        · exact hq hp
    · exact ⟨by rw [hc]; simp, hp⟩
    · exact ⟨by rw [hc]; simp, hp⟩
    · exact ⟨by rw [hc]; simp, hp⟩
  have htr : Tracked (followEdgeLog lwhiteval rwhiteval seed pre) :=
    foldl_tracked lwhiteval rwhiteval pre (initEngine seed, none) (Or.inl ⟨rfl, rfl, rfl⟩)
  have hiss : Issued (followEdgeLog lwhiteval rwhiteval seed (pre ++ [c])) := by
    rw [followEdgeLog_concat]
    exact logStep_issued lwhiteval rwhiteval _ c htr
  have hfst := followEdgeLog_fst lwhiteval rwhiteval seed (pre ++ [c])
  obtain ⟨t0, h⟩ := hiss
  rw [hfst] at h
  refine ⟨rfl, hfirst.1, hfirst.2, ?_, ?_⟩
  · rcases h with ⟨_, hm, _⟩ | ⟨_, hm, _⟩ | ⟨_, hm, _⟩
    · exact Or.inl hm
    · exact Or.inr (Or.inl hm)
    · exact Or.inr (Or.inr hm)
  · rcases h with ⟨hl, hm, he⟩ | ⟨hl, hm, he⟩ | ⟨hl, hm, he⟩
    · refine ⟨t0, (lspd, rspd), hl, Or.inl rfl, ?_, ?_, ?_, fun _ => he, fun hne => absurd rfl hne, hex t0⟩
      · rw [hm]; simp
      · rw [hm]; exact ⟨(fun h => by cases h), fun h => absurd h.symm hz1⟩
      · rw [hm]; exact ⟨(fun h => by cases h), fun h => absurd h.symm hz2⟩
    · refine ⟨t0, (0, rspd), hl, Or.inr (Or.inl rfl), ?_, ?_, ?_,
        fun h => absurd h hz1, fun _ => he, hex t0⟩
      · rw [hm]; exact ⟨(fun h => by cases h), fun h => absurd h hz1⟩
      · rw [hm]; simp
      · rw [hm]; exact ⟨(fun h => by cases h), fun h => absurd h.symm hz3⟩
    · refine ⟨t0, (lspd, 0), hl, Or.inr (Or.inr rfl), ?_, ?_, ?_,
        fun h => absurd h hz2, fun _ => he, hex t0⟩
      · rw [hm]; exact ⟨(fun h => by cases h), fun h => absurd h hz2⟩
      · rw [hm]; exact ⟨(fun h => by cases h), fun h => absurd h hz3⟩
      · rw [hm]; simp

/-! ## C16: the engine never stops the robot -/

/-- C16. For every state and every tick, the arguments of a call of `move` made
by the iteration are one of exactly three pairs, `(lspd, rspd)`, `(0, rspd)` or
`(lspd, 0)`, with `lspd = baseLeftSpeed = 17` and `rspd = baseRightSpeed = 17`.
The pair is never `(0, 0)` (what `stop` writes), each wheel level is 0 or its
base speed, both are within the 8-bit range (so `move` writes them unchanged),
and at least one wheel is driven. -/
theorem followEdge_never_stops (lwhiteval rwhiteval : Nat) (s : Engine) (c : Tick)
    (cmd : Nat × Nat) (h : (followEdgeStep lwhiteval rwhiteval s c).cmd = some cmd) :
    (cmd = (lspd, rspd) ∨ cmd = (0, rspd) ∨ cmd = (lspd, 0)) ∧
    lspd = baseLeftSpeed ∧ baseLeftSpeed = 17 ∧ rspd = baseRightSpeed ∧ baseRightSpeed = 17 ∧
    cmd ≠ (0, 0) ∧ cmd ≠ stop ∧
    (cmd.1 = 0 ∨ cmd.1 = baseLeftSpeed) ∧ (cmd.2 = 0 ∨ cmd.2 = baseRightSpeed) ∧
    cmd.1 ≤ 255 ∧ cmd.2 ≤ 255 ∧ move cmd.1 cmd.2 = cmd ∧
    (0 < cmd.1 ∨ 0 < cmd.2) := by
  have h3 : cmd = (lspd, rspd) ∨ cmd = (0, rspd) ∨ cmd = (lspd, 0) := by
    rcases step_shape lwhiteval rwhiteval s c with ⟨_, hc, _⟩ | ⟨_, hc, _⟩ | ⟨_, hc, _⟩ |
      ⟨_, hc, _⟩
    · rw [hc] at h; cases h
    · rw [hc] at h; exact Or.inl (Option.some.inj h).symm
    · rw [hc] at h; exact Or.inr (Or.inl (Option.some.inj h).symm)
    · rw [hc] at h; exact Or.inr (Or.inr (Option.some.inj h).symm)
  refine ⟨h3, by decide, rfl, by decide, rfl, ?_⟩
  rcases h3 with rfl | rfl | rfl <;> decide

/-- Witness of C16: the first tick of a run on white issues `(17, 17)`, which is
not what `stop` writes. -/
theorem followEdge_never_stops_witness :
    (followEdgeStep 500 500 (initEngine 5) (Tick.atTime 0 2400 2400 0)).cmd = some (17, 17) ∧
    ((17 : Nat), (17 : Nat)) ≠ stop ∧ move 17 17 = (17, 17) :=
  have h := followEdge_never_stops 500 500 (initEngine 5) (Tick.atTime 0 2400 2400 0)
    (17, 17) (by decide)
  ⟨by decide, h.2.2.2.2.2.2.1, h.2.2.2.2.2.2.2.2.2.2.2.1⟩

end Robot2
